import Mathlib

/-!
Shallow embedding of the lockfile library (src/lockfile.py): an advisory
file-locking primitive built on non-blocking OS locks.  The filesystem and
the per-process handle table are modelled explicitly; every primitive
appends to a ghost event log so that ordering and invocation-count
properties can be stated.
-/

/-- Lock mode: shared (fcntl.LOCK_SH) or exclusive (fcntl.LOCK_EX). -/
inductive Mode where
  | shared
  | exclusive
deriving DecidableEq

/-- A small embedding of Python values, enough for the truthiness tests the
library performs and for the argument/marker/error plumbing of lockfunc. -/
inductive PyVal where
  | none
  | bool (b : Bool)
  | int (n : Int)
  | str (v : String)
  | exc (name : String)
deriving DecidableEq

/-- Python truthiness of the embedded values. -/
def pyTruthy : PyVal → Bool
  | .none => false
  | .bool b => b
  | .int n => n != 0
  | .str v => v != ""
  | .exc _ => true

/-- Exceptions that can flow through the embedded code.  lockError is the
LockError of the source (carrying the lock path); osErrorMissing models
os.remove failing on a missing path; raised models a user-raised error
value; indexError models args[0] on an empty tuple; typeError models
string concatenation or raising applied to an ill-typed value. -/
inductive Err where
  | lockError (path : String)
  | osErrorMissing (path : String)
  | raised (v : PyVal)
  | indexError
  | typeError
deriving DecidableEq

deriving instance DecidableEq for Except

/-- Ghost trace events appended by each primitive operation. -/
inductive Ev where
  | opened (fd : Nat) (path : String)
  | flocked (fd : Nat) (m : Mode)
  | flockFailed (fd : Nat) (m : Mode)
  | removed (path : String)
  | removeFailed (path : String)
  | closedFd (fd : Nat)
  | slept (d : Nat)
  | closeCalled (f : Option Nat)
  | funcCalled (args : List PyVal) (kwargs : List (String × PyVal))
deriving DecidableEq

/-- One open-file-description entry: file descriptor, identity of the file
object it refers to (inode), whether it is still open, and the advisory
lock currently held through it. -/
structure HandleObj where
  fd : Nat
  fid : Nat
  isOpen : Bool
  lock : Option Mode
deriving DecidableEq

/-- World state: directory entries (path to file identity), file contents by
identity, the handle table (including handles owned by other cooperating
processes), fresh-name counters, and the ghost event log. -/
structure St where
  dir : List (String × Nat)
  contents : List (Nat × String)
  handles : List HandleObj
  nextFd : Nat
  nextFid : Nat
  events : List Ev
deriving DecidableEq

/-- Append a ghost event. -/
def logEv (e : Ev) (s : St) : St := { s with events := s.events ++ [e] }

/-- Look up the file identity a path currently names. -/
def lookupDir (s : St) (p : String) : Option Nat :=
  (s.dir.find? (fun pr => pr.1 == p)).map (fun pr => pr.2)

/-- Does a directory entry for this path exist? -/
def pathExists (s : St) (p : String) : Bool := (lookupDir s p).isSome

/-- Contents of the file object with the given identity. -/
def contentsOf (s : St) (fid : Nat) : Option String :=
  (s.contents.find? (fun pr => pr.1 == fid)).map (fun pr => pr.2)

/-- Python open(path, "a"): create the file if absent, never truncate
existing content, and return a fresh descriptor onto it. -/
def openAppend (p : String) (s : St) : Nat × St :=
  match lookupDir s p with
  | some fid =>
      (s.nextFd,
        logEv (.opened s.nextFd p)
          { s with handles := s.handles ++ [⟨s.nextFd, fid, true, none⟩],
                   nextFd := s.nextFd + 1 })
  | none =>
      (s.nextFd,
        logEv (.opened s.nextFd p)
          { s with dir := s.dir ++ [(p, s.nextFid)],
                   contents := s.contents ++ [(s.nextFid, "")],
                   handles := s.handles ++ [⟨s.nextFd, s.nextFid, true, none⟩],
                   nextFd := s.nextFd + 1,
                   nextFid := s.nextFid + 1 })

/-- Can a lock held through another descriptor coexist with a request in
mode m?  Only shared with shared coexists. -/
def incompatible (held : Option Mode) (m : Mode) : Bool :=
  match held with
  | none => false
  | some hm => !(hm == Mode.shared && m == Mode.shared)

/-- Find the handle entry for a descriptor. -/
def findHandle (s : St) (fd : Nat) : Option HandleObj :=
  s.handles.find? (fun h => h.fd == fd)

/-- Does any other live descriptor on the same file object hold a lock
incompatible with mode m? -/
def flockConflict (s : St) (fd fid : Nat) (m : Mode) : Bool :=
  s.handles.any (fun h => h.fd != fd && h.isOpen && h.fid == fid && incompatible h.lock m)

/-- Non-blocking fcntl.flock on a descriptor: succeeds, converting the
descriptor's own lock to mode m, exactly when no other live descriptor on
the same file object holds an incompatible lock. -/
def flock (fd : Nat) (m : Mode) (s : St) : Bool × St :=
  match findHandle s fd with
  | none => (false, logEv (.flockFailed fd m) s)
  | some h =>
      if h.isOpen && !flockConflict s fd h.fid m then
        (true, logEv (.flocked fd m)
          { s with handles := (s.handles.map
              (fun h2 => if h2.fd == fd then { h2 with lock := some m } else h2)) })
      else (false, logEv (.flockFailed fd m) s)

/-- os.remove: unlink the directory entry; fails if the path is absent.
Open handles keep their file object alive. -/
def osRemove (p : String) (s : St) : Bool × St :=
  if pathExists s p then
    (true, logEv (.removed p) { s with dir := s.dir.filter (fun pr => pr.1 != p) })
  else (false, logEv (.removeFailed p) s)

/-- Closing a file handle: marks it closed and drops any advisory lock held
through it (closing releases the lock). -/
def fclose (fd : Nat) (s : St) : St :=
  logEv (.closedFd fd)
    { s with handles := (s.handles.map
        (fun h => if h.fd == fd then { h with isOpen := false, lock := none } else h)) }

/-- time.sleep(d): only observable in the ghost trace. -/
def sleepSt (d : Nat) (s : St) : St := logEv (.slept d) s

/-- The mode requested for a given shared flag (source line 26). -/
def modeOf (sh : Bool) : Mode := if sh then Mode.shared else Mode.exclusive

/-- The LockFile object: optional open descriptor (the _f attribute), the
lock-file path, the shared flag and the cleanup flag. -/
structure LockFile where
  f : Option Nat
  path : String
  shared : Bool
  cleanup : Bool
deriving DecidableEq

/-- LockFile.__init__ (source lines 23-33): open the path in append mode,
attempt a single non-blocking flock in the requested mode; on failure close
the handle immediately and raise LockError carrying the path; on success
return the lock object recording handle, path, shared and cleanup. -/
def LockFile.acquire (path : String) (shared cleanup : Bool) (s : St) :
    Except Err LockFile × St :=
  let (fd, s1) := openAppend path s
  match flock fd (modeOf shared) s1 with
  | (true, s2) => (.ok ⟨some fd, path, shared, cleanup⟩, s2)
  | (false, s2) => (.error (.lockError path), fclose fd s2)

/-- LockFile.close (source lines 35-50): no-op when already closed; when
cleanup is set, a shared lock first tries a non-blocking exclusive upgrade
(IOError suppressed) and removes the file only on upgrade success, while an
exclusive lock removes it unconditionally; os.remove failures are NOT
caught and propagate, skipping the handle close; otherwise the handle is
closed last and the _f attribute cleared. -/
def LockFile.close (l : LockFile) (s : St) : Except Err Unit × LockFile × St :=
  let s0 := logEv (.closeCalled l.f) s
  match l.f with
  | none => (.ok (), l, s0)
  | some fd =>
      if l.cleanup && l.shared then
        match flock fd Mode.exclusive s0 with
        | (false, s1) => (.ok (), { l with f := none }, fclose fd s1)
        | (true, s1) =>
            match osRemove l.path s1 with
            | (false, s2) => (.error (.osErrorMissing l.path), l, s2)
            | (true, s2) => (.ok (), { l with f := none }, fclose fd s2)
      else if l.cleanup then
        match osRemove l.path s0 with
        | (false, s2) => (.error (.osErrorMissing l.path), l, s2)
        | (true, s2) => (.ok (), { l with f := none }, fclose fd s2)
      else (.ok (), { l with f := none }, fclose fd s0)

/-- The retry loop of lockfile (source lines 75-86), generic in the state
and the acquisition action.  The fuel argument is the number of attempts
still allowed (initially 1 + max_retries).  A LockError from an attempt is
caught; after a failed attempt the caller sleeps only if another attempt
remains.  Any non-LockError exception propagates uncaught. -/
def acquireLoop {σ α : Type} (acq : σ → Except Err α × σ) (slp : σ → σ) :
    Nat → σ → Except Err (Option α) × σ
  | 0, s => (.ok none, s)
  | Nat.succ n, s =>
      match acq s with
      | (.ok a, s1) => (.ok (some a), s1)
      | (.error (.lockError _), s1) =>
          acquireLoop acq slp n (if 0 < n then slp s1 else s1)
      | (.error e, s1) => (.error e, s1)

/-- The acquisition phase of lockfile: run the retry loop with the real
LockFile constructor on the (already suffixed) lock path. -/
def lockfileAcq (lockPath : String) (maxRetries retryDelay : Nat) (shared : Bool)
    (s : St) : Except Err (Option LockFile) × St :=
  acquireLoop (fun s2 => LockFile.acquire lockPath shared true s2)
    (sleepSt retryDelay) (1 + maxRetries) s

/-- Raising a Python value: only exception values may be raised; anything
else raises TypeError instead. -/
def pyRaise (v : PyVal) : Err :=
  match v with
  | .exc n => .raised (.exc n)
  | _ => .typeError

/-- The lockfile context manager (source lines 53-94), with the protected
block passed explicitly.  The path gains the ".lock" suffix (a non-string
path fails the concatenation), the retry loop runs, then: if error is
truthy and no lock was obtained the error is raised before the block runs;
otherwise the block receives the lock or the None sentinel; finally, if a
lock was obtained its close is invoked, and an exception from close
replaces the pending result. -/
def lockfile {α : Type} (path : PyVal) (maxRetries retryDelay : Nat) (shared : Bool)
    (error : PyVal) (body : Option LockFile → St → Except Err α × St) (s : St) :
    Except Err α × St :=
  match path with
  | .str p =>
      match lockfileAcq (p ++ ".lock") maxRetries retryDelay shared s with
      | (.error e, s1) => (.error e, s1)
      | (.ok lockOpt, s1) =>
          let (res, s2) :=
            if pyTruthy error && lockOpt.isNone then (.error (pyRaise error), s1)
            else body lockOpt s1
          match lockOpt with
          | none => (res, s2)
          | some l =>
              match LockFile.close l s2 with
              | (.ok _, _, s3) => (res, s3)
              | (.error e, _, s3) => (.error e, s3)
  | _ => (.error .typeError, s)

/-- Path resolution of the lockfunc wrapper (source line 133, the
expression path or args[0]): a truthy configured path wins, otherwise the
first positional argument; none when there is neither. -/
def resolvePath (path : PyVal) (args : List PyVal) : Option PyVal :=
  if pyTruthy path then some path else args.head?

/-- The protected block the lockfunc wrapper runs (source lines 136-138):
return marker without calling the function when no lock was obtained,
otherwise call the wrapped function on the original arguments. -/
def lockfuncBody (func : List PyVal → List (String × PyVal) → PyVal)
    (marker : PyVal) (args : List PyVal) (kwargs : List (String × PyVal)) :
    Option LockFile → St → Except Err PyVal × St
  | none, s => (.ok marker, s)
  | some _, s => (.ok (func args kwargs), logEv (.funcCalled args kwargs) s)

/-- A call of the lockfunc-wrapped function (source lines 130-141): resolve
the effective lock path (IndexError when neither a truthy configured path
nor a positional argument exists), then run the lockfile context manager
around the wrapped function. -/
def lockfunc (path : PyVal) (maxRetries retryDelay : Nat) (shared : Bool)
    (marker error : PyVal) (func : List PyVal → List (String × PyVal) → PyVal)
    (args : List PyVal) (kwargs : List (String × PyVal)) (s : St) :
    Except Err PyVal × St :=
  match resolvePath path args with
  | none => (.error .indexError, s)
  | some ep =>
      lockfile ep maxRetries retryDelay shared error
        (lockfuncBody func marker args kwargs) s

/-- A single non-blocking acquisition in mode m on this path would succeed
in this state: either the lock file does not exist yet (a fresh file object
carries no locks), or no live handle on its file object holds an
incompatible lock. -/
def canAcquire (p : String) (m : Mode) (s : St) : Bool :=
  match lookupDir s p with
  | none => true
  | some fid =>
      !(s.handles.any (fun h => h.isOpen && h.fid == fid && incompatible h.lock m))

/-- Is the descriptor currently open in the handle table? -/
def handleIsOpen (s : St) (fd : Nat) : Bool :=
  s.handles.any (fun h => h.fd == fd && h.isOpen)

/-- Well-formedness: every descriptor and file identity in use is below
the corresponding freshness counter. -/
def wfSt (s : St) : Prop :=
  (∀ h ∈ s.handles, h.fd < s.nextFd ∧ h.fid < s.nextFid)
    ∧ (∀ pr ∈ s.dir, pr.2 < s.nextFid)
    ∧ (∀ pr ∈ s.contents, pr.1 < s.nextFid)

/-- Is this event an invocation of LockFile.close? -/
def isCloseCalledEv : Ev → Bool
  | .closeCalled _ => true
  | _ => false

/-- Is this event an invocation of the wrapped function? -/
def isFuncCalledEv : Ev → Bool
  | .funcCalled _ _ => true
  | _ => false

/-- How many times LockFile.close has been invoked so far. -/
def closeCalledCount (s : St) : Nat := s.events.countP isCloseCalledEv

/-- How many times the wrapped function has been invoked so far. -/
def funcCalledCount (s : St) : Nat := s.events.countP isFuncCalledEv

/-- The state extends the old one by events that are neither close
invocations nor wrapped-function invocations. -/
def benignExt (s s' : St) : Prop :=
  ∃ ext, s'.events = s.events ++ ext ∧
    ext.countP isCloseCalledEv = 0 ∧ ext.countP isFuncCalledEv = 0

/-- Is this exception a LockError? -/
def isLockErr {α : Type} : Except Err α → Bool
  | .error (.lockError _) => true
  | _ => false

/-- Instrumented state for analysing the retry loop in isolation: how many
acquisition attempts have run and how many sleeps occurred. -/
structure TraceSt where
  calls : Nat
  sleeps : Nat
deriving DecidableEq

/-- An acquisition action whose success is dictated by an environment
schedule: attempt number i succeeds exactly when the schedule allows it
(other processes determine availability); every attempt is counted. -/
def schedAcq (sch : Nat → Bool) (s : TraceSt) : Except Err Unit × TraceSt :=
  if sch s.calls then (.ok (), { s with calls := s.calls + 1 })
  else (.error (.lockError ""), { s with calls := s.calls + 1 })

/-- A sleep that is only counted. -/
def schedSleep (s : TraceSt) : TraceSt := { s with sleeps := s.sleeps + 1 }

/-! ## Basic lemmas about the state primitives -/

theorem logEv_handles (e : Ev) (s : St) : (logEv e s).handles = s.handles := rfl

theorem logEv_dir (e : Ev) (s : St) : (logEv e s).dir = s.dir := rfl

theorem findHandle_logEv (e : Ev) (s : St) (fd : Nat) :
    findHandle (logEv e s) fd = findHandle s fd := rfl

theorem flockConflict_logEv (e : Ev) (s : St) (fd fid : Nat) (m : Mode) :
    flockConflict (logEv e s) fd fid m = flockConflict s fd fid m := rfl

theorem pathExists_logEv (e : Ev) (s : St) (p : String) :
    pathExists (logEv e s) p = pathExists s p := rfl

theorem canAcquire_logEv (e : Ev) (s : St) (p : String) (m : Mode) :
    canAcquire p m (logEv e s) = canAcquire p m s := rfl

/-! ## The retry loop in isolation (schedule-driven instrumentation) -/

theorem schedLoop_all_fail (sch : Nat → Bool) :
    ∀ (n c sl : Nat), (∀ i < n, sch (c + i) = false) →
      acquireLoop (schedAcq sch) schedSleep n ⟨c, sl⟩
        = (.ok none, ⟨c + n, sl + (n - 1)⟩) := by
  intro n
  induction n with
  | zero => intro c sl _; simp [acquireLoop]
  | succ m ih =>
      intro c sl h
      have h0 : sch c = false := by simpa using h 0 (Nat.succ_pos m)
      simp only [acquireLoop, schedAcq, h0, if_false, Bool.false_eq_true]
      cases m with
      | zero => simp [acquireLoop]
      | succ k =>
          have hrec := ih (c + 1) (sl + 1) (by
            intro i hi
            have := h (i + 1) (by omega)
            simpa [Nat.add_assoc, Nat.add_comm 1 i] using this)
          simp only [Nat.succ_pos, if_pos, schedSleep]
          rw [show c + (k + 1 + 1) = c + 1 + (k + 1) by omega,
            show sl + (k + 1 + 1 - 1) = sl + 1 + (k + 1 - 1) by omega]
          exact hrec

theorem schedLoop_first_success (sch : Nat → Bool) :
    ∀ (k n c sl : Nat), (∀ i < k, sch (c + i) = false) → sch (c + k) = true →
      k < n →
      acquireLoop (schedAcq sch) schedSleep n ⟨c, sl⟩
        = (.ok (some ()), ⟨c + k + 1, sl + k⟩) := by
  intro k
  induction k with
  | zero =>
      intro n c sl _ hk hlt
      cases n with
      | zero => omega
      | succ m =>
          have hk' : sch c = true := by simpa using hk
          simp [acquireLoop, schedAcq, hk']
  | succ j ih =>
      intro n c sl h hk hlt
      cases n with
      | zero => omega
      | succ m =>
          have h0 : sch c = false := by simpa using h 0 (Nat.succ_pos j)
          have hm : 0 < m := by omega
          simp only [acquireLoop, schedAcq, h0, if_false, Bool.false_eq_true, hm, if_pos,
            schedSleep]
          have hrec := ih m (c + 1) (sl + 1) (by
            intro i hi
            have := h (i + 1) (by omega)
            simpa [Nat.add_assoc, Nat.add_comm 1 i] using this)
            (by simpa [Nat.add_assoc, Nat.add_comm 1 j] using hk) (by omega)
          rw [show c + (j + 1) + 1 = c + 1 + j + 1 by omega,
            show sl + (j + 1) = sl + 1 + j by omega]
          exact hrec

/-- C3: the retry loop calls Acquire at most maxRetries + 1 times; it stops
and yields the held lock immediately on the first successful attempt; after
all attempts fail it yields the Unavailable outcome; and it sleeps only
between two consecutive attempts, so with maxRetries = 0 a single failed
attempt yields Unavailable with no sleep.  The loop of the lockfile context
manager is exactly this loop, started with 1 + maxRetries attempts; the
schedule-driven instrumentation counts attempts and sleeps under an
arbitrary environment. -/
theorem retry_loop_attempt_bounds (sch : Nat → Bool) (maxRetries : Nat) :
    (∀ p mR rD sh s, lockfileAcq p mR rD sh s
        = acquireLoop (fun s2 => LockFile.acquire p sh true s2)
            (sleepSt rD) (1 + mR) s)
    ∧ ((∀ i < 1 + maxRetries, sch i = false) →
        acquireLoop (schedAcq sch) schedSleep (1 + maxRetries) ⟨0, 0⟩
          = (.ok none, ⟨1 + maxRetries, maxRetries⟩))
    ∧ (∀ k, k < 1 + maxRetries → (∀ i < k, sch i = false) → sch k = true →
        acquireLoop (schedAcq sch) schedSleep (1 + maxRetries) ⟨0, 0⟩
          = (.ok (some ()), ⟨k + 1, k⟩))
    ∧ (sch 0 = false →
        acquireLoop (schedAcq sch) schedSleep 1 ⟨0, 0⟩ = (.ok none, ⟨1, 0⟩)) := by
  refine ⟨fun p mR rD sh s => rfl, ?_, ?_, ?_⟩
  · intro h
    have := schedLoop_all_fail sch (1 + maxRetries) 0 0 (by simpa using h)
    simpa using this
  · intro k hk h hsucc
    have := schedLoop_first_success sch k (1 + maxRetries) 0 0
      (by simpa using h) (by simpa using hsucc) hk
    simpa using this
  · intro h
    have := schedLoop_all_fail sch 1 0 0 (by simpa using h)
    simpa using this

/-- Witness for C3: with an environment that first allows the lock on the
third attempt and a budget of maxRetries = 4, the loop makes exactly three
calls and two sleeps and stops with the lock. -/
theorem retry_loop_attempt_bounds_witness :
    acquireLoop (schedAcq (fun i => i == 2)) schedSleep (1 + 4) ⟨0, 0⟩
      = (.ok (some ()), ⟨2 + 1, 2⟩) :=
  (retry_loop_attempt_bounds (fun i => i == 2) 4).2.2.1 2 (by decide)
    (by decide) (by decide)

/-! ## Helper lemmas about flock, osRemove, fclose -/

theorem flock_success_eq (s : St) (fd : Nat) (h : HandleObj) (m : Mode)
    (hfind : findHandle s fd = some h) (hopen : h.isOpen = true)
    (hconf : flockConflict s fd h.fid m = false) :
    flock fd m s = (true, logEv (.flocked fd m)
      { s with handles := (s.handles.map
          (fun h2 => if h2.fd == fd then { h2 with lock := some m } else h2)) }) := by
  simp [flock, hfind, hopen, hconf]

theorem flock_fail_of_conflict (s : St) (fd : Nat) (h : HandleObj) (m : Mode)
    (hfind : findHandle s fd = some h)
    (hconf : flockConflict s fd h.fid m = true) :
    flock fd m s = (false, logEv (.flockFailed fd m) s) := by
  simp [flock, hfind, hconf]

theorem osRemove_exists_eq (s : St) (p : String) (hp : pathExists s p = true) :
    osRemove p s = (true, logEv (.removed p)
      { s with dir := s.dir.filter (fun pr => pr.1 != p) }) := by
  simp [osRemove, hp]

theorem osRemove_missing_eq (s : St) (p : String) (hp : pathExists s p = false) :
    osRemove p s = (false, logEv (.removeFailed p) s) := by
  simp [osRemove, hp]

theorem find?_filter_ne (d : List (String × Nat)) (p : String) :
    (d.filter (fun pr => pr.1 != p)).find? (fun pr => pr.1 == p) = none := by
  rw [List.find?_eq_none]
  intro x hx
  have h2 := (List.mem_filter.mp hx).2
  simp only [bne_iff_ne, ne_eq] at h2
  simp [h2]

theorem handles_closed_map (hs : List HandleObj) (fd : Nat) :
    (hs.map (fun h => if h.fd == fd then { h with isOpen := false, lock := none } else h)).any
      (fun h => h.fd == fd && h.isOpen) = false := by
  induction hs with
  | nil => rfl
  | cons a t ih =>
      simp only [List.map_cons, List.any_cons, Bool.or_eq_false_iff]
      refine ⟨?_, ih⟩
      cases hfd : a.fd == fd <;> simp [hfd]

theorem handleIsOpen_fclose (s : St) (fd : Nat) :
    handleIsOpen (fclose fd s) fd = false := by
  simp only [handleIsOpen, fclose, logEv]
  exact handles_closed_map s.handles fd

theorem handleIsOpen_of_find (s : St) (fd : Nat) (h : HandleObj)
    (hfind : findHandle s fd = some h) (hopen : h.isOpen = true) :
    handleIsOpen s fd = true := by
  have hfind2 : s.handles.find? (fun h2 => h2.fd == fd) = some h := hfind
  have hmem := List.mem_of_find?_eq_some hfind2
  have hpred := List.find?_some hfind2
  simp only [handleIsOpen, List.any_eq_true]
  exact ⟨h, hmem, by simp [hpred, hopen]⟩

theorem any_open_flockMap (hs : List HandleObj) (fd fd2 : Nat) (m : Mode) :
    (hs.map (fun h2 => if h2.fd == fd then { h2 with lock := some m } else h2)).any
      (fun h => h.fd == fd2 && h.isOpen)
      = hs.any (fun h => h.fd == fd2 && h.isOpen) := by
  induction hs with
  | nil => rfl
  | cons a t ih =>
      simp only [List.map_cons, List.any_cons, ih]
      cases hfd : a.fd == fd <;> simp [hfd]

/-! ## Branch characterizations of LockFile.close -/

theorem close_branchA (l : LockFile) (s : St) (fd : Nat) (h : HandleObj)
    (hf : l.f = some fd) (hcl : l.cleanup = true) (hsh : l.shared = true)
    (hfind : findHandle s fd = some h) (hopen : h.isOpen = true)
    (hconf : flockConflict s fd h.fid Mode.exclusive = false)
    (hp : pathExists s l.path = true) :
    (LockFile.close l s).1 = .ok ()
      ∧ (LockFile.close l s).2.1 = { l with f := none }
      ∧ pathExists (LockFile.close l s).2.2 l.path = false
      ∧ handleIsOpen (LockFile.close l s).2.2 fd = false
      ∧ (LockFile.close l s).2.2.events
          = s.events ++ [.closeCalled (some fd), .flocked fd Mode.exclusive,
              .removed l.path, .closedFd fd] := by
  have hfl := flock_success_eq (logEv (.closeCalled (some fd)) s) fd h
    Mode.exclusive hfind hopen hconf
  rcases hflE : flock fd Mode.exclusive (logEv (.closeCalled (some fd)) s) with ⟨b, sF⟩
  rw [hflE, Prod.mk.injEq] at hfl
  obtain ⟨hb, hsF⟩ := hfl
  subst hb
  have hpF : pathExists sF l.path = true := by rw [hsF]; exact hp
  have hrm := osRemove_exists_eq sF l.path hpF
  rcases hrmE : osRemove l.path sF with ⟨b2, sR⟩
  rw [hrmE, Prod.mk.injEq] at hrm
  obtain ⟨hb2, hsR⟩ := hrm
  subst hb2
  simp only [LockFile.close, hf, hcl, hsh, Bool.and_self, if_true, hflE, hrmE]
  refine ⟨by trivial, by trivial, ?_, handleIsOpen_fclose sR fd, ?_⟩
  · simp [pathExists, lookupDir, fclose, logEv, hsR, find?_filter_ne]
  · rw [hsR, hsF]
    simp [fclose, logEv]

theorem close_branchB (l : LockFile) (s : St) (fd : Nat) (h : HandleObj)
    (hf : l.f = some fd) (hcl : l.cleanup = true) (hsh : l.shared = true)
    (hfind : findHandle s fd = some h)
    (hconf : flockConflict s fd h.fid Mode.exclusive = true) :
    (LockFile.close l s).1 = .ok ()
      ∧ (LockFile.close l s).2.1 = { l with f := none }
      ∧ pathExists (LockFile.close l s).2.2 l.path = pathExists s l.path
      ∧ handleIsOpen (LockFile.close l s).2.2 fd = false
      ∧ (LockFile.close l s).2.2.events
          = s.events ++ [.closeCalled (some fd), .flockFailed fd Mode.exclusive,
              .closedFd fd] := by
  have hfl := flock_fail_of_conflict (logEv (.closeCalled (some fd)) s) fd h
    Mode.exclusive hfind hconf
  rcases hflE : flock fd Mode.exclusive (logEv (.closeCalled (some fd)) s) with ⟨b, sF⟩
  rw [hflE, Prod.mk.injEq] at hfl
  obtain ⟨hb, hsF⟩ := hfl
  subst hb
  simp only [LockFile.close, hf, hcl, hsh, Bool.and_self, if_true, hflE]
  refine ⟨by trivial, by trivial, ?_, handleIsOpen_fclose sF fd, ?_⟩
  · rw [hsF]; rfl
  · rw [hsF]; simp [fclose, logEv]

theorem close_branchC (l : LockFile) (s : St) (fd : Nat)
    (hf : l.f = some fd) (hcl : l.cleanup = true) (hsh : l.shared = false)
    (hp : pathExists s l.path = true) :
    (LockFile.close l s).1 = .ok ()
      ∧ (LockFile.close l s).2.1 = { l with f := none }
      ∧ pathExists (LockFile.close l s).2.2 l.path = false
      ∧ handleIsOpen (LockFile.close l s).2.2 fd = false
      ∧ (LockFile.close l s).2.2.events
          = s.events ++ [.closeCalled (some fd), .removed l.path, .closedFd fd] := by
  have hp0 : pathExists (logEv (.closeCalled (some fd)) s) l.path = true := hp
  have hrm := osRemove_exists_eq (logEv (.closeCalled (some fd)) s) l.path hp0
  rcases hrmE : osRemove l.path (logEv (.closeCalled (some fd)) s) with ⟨b, sR⟩
  rw [hrmE, Prod.mk.injEq] at hrm
  obtain ⟨hb, hsR⟩ := hrm
  subst hb
  simp only [LockFile.close, hf, hcl, hsh, Bool.and_false, Bool.false_eq_true,
    if_false, if_true, hrmE]
  refine ⟨by trivial, by trivial, ?_, handleIsOpen_fclose sR fd, ?_⟩
  · simp [pathExists, lookupDir, fclose, logEv, hsR, find?_filter_ne]
  · rw [hsR]; simp [fclose, logEv]

theorem close_branchD (l : LockFile) (s : St) (fd : Nat)
    (hf : l.f = some fd) (hcl : l.cleanup = true) (hsh : l.shared = false)
    (hp : pathExists s l.path = false) :
    (LockFile.close l s).1 = .error (.osErrorMissing l.path)
      ∧ (LockFile.close l s).2.1 = l
      ∧ handleIsOpen (LockFile.close l s).2.2 fd = handleIsOpen s fd
      ∧ (LockFile.close l s).2.2.events
          = s.events ++ [.closeCalled (some fd), .removeFailed l.path] := by
  have hp0 : pathExists (logEv (.closeCalled (some fd)) s) l.path = false := hp
  have hrm := osRemove_missing_eq (logEv (.closeCalled (some fd)) s) l.path hp0
  rcases hrmE : osRemove l.path (logEv (.closeCalled (some fd)) s) with ⟨b, sR⟩
  rw [hrmE, Prod.mk.injEq] at hrm
  obtain ⟨hb, hsR⟩ := hrm
  subst hb
  simp only [LockFile.close, hf, hcl, hsh, Bool.and_false, Bool.false_eq_true,
    if_false, if_true, hrmE]
  refine ⟨by trivial, by trivial, ?_, ?_⟩
  · rw [hsR]; rfl
  · rw [hsR]; simp [logEv]

theorem close_branchE (l : LockFile) (s : St) (fd : Nat) (h : HandleObj)
    (hf : l.f = some fd) (hcl : l.cleanup = true) (hsh : l.shared = true)
    (hfind : findHandle s fd = some h) (hopen : h.isOpen = true)
    (hconf : flockConflict s fd h.fid Mode.exclusive = false)
    (hp : pathExists s l.path = false) :
    (LockFile.close l s).1 = .error (.osErrorMissing l.path)
      ∧ (LockFile.close l s).2.1 = l
      ∧ handleIsOpen (LockFile.close l s).2.2 fd = handleIsOpen s fd
      ∧ (LockFile.close l s).2.2.events
          = s.events ++ [.closeCalled (some fd), .flocked fd Mode.exclusive,
              .removeFailed l.path] := by
  have hfl := flock_success_eq (logEv (.closeCalled (some fd)) s) fd h
    Mode.exclusive hfind hopen hconf
  rcases hflE : flock fd Mode.exclusive (logEv (.closeCalled (some fd)) s) with ⟨b, sF⟩
  rw [hflE, Prod.mk.injEq] at hfl
  obtain ⟨hb, hsF⟩ := hfl
  subst hb
  have hpF : pathExists sF l.path = false := by rw [hsF]; exact hp
  have hrm := osRemove_missing_eq sF l.path hpF
  rcases hrmE : osRemove l.path sF with ⟨b2, sR⟩
  rw [hrmE, Prod.mk.injEq] at hrm
  obtain ⟨hb2, hsR⟩ := hrm
  subst hb2
  simp only [LockFile.close, hf, hcl, hsh, Bool.and_self, if_true, hflE, hrmE]
  refine ⟨by trivial, by trivial, ?_, ?_⟩
  · rw [hsR, hsF]
    simp only [handleIsOpen, logEv]
    exact any_open_flockMap s.handles fd fd Mode.exclusive
  · rw [hsR, hsF]; simp [logEv]

/-- C4: on Release of a held lock with cleanup set: in Shared mode a
non-blocking Exclusive upgrade is attempted on the same handle; on upgrade
success the lock-file is deleted from the filesystem before the handle is
closed, on upgrade failure it is left in place; in Exclusive mode the
lock-file is deleted before closing.  The event trace shows the deletion
strictly preceding the handle close. -/
theorem release_cleanup_deletion (l : LockFile) (s : St) (fd : Nat) (h : HandleObj)
    (hf : l.f = some fd) (hcl : l.cleanup = true)
    (hfind : findHandle s fd = some h) (hopen : h.isOpen = true)
    (hp : pathExists s l.path = true) :
    (l.shared = true → flockConflict s fd h.fid Mode.exclusive = false →
        (LockFile.close l s).1 = .ok ()
          ∧ pathExists (LockFile.close l s).2.2 l.path = false
          ∧ (LockFile.close l s).2.2.events
              = s.events ++ [.closeCalled (some fd), .flocked fd Mode.exclusive,
                  .removed l.path, .closedFd fd])
    ∧ (l.shared = true → flockConflict s fd h.fid Mode.exclusive = true →
        (LockFile.close l s).1 = .ok ()
          ∧ pathExists (LockFile.close l s).2.2 l.path = true
          ∧ (LockFile.close l s).2.2.events
              = s.events ++ [.closeCalled (some fd), .flockFailed fd Mode.exclusive,
                  .closedFd fd])
    ∧ (l.shared = false →
        (LockFile.close l s).1 = .ok ()
          ∧ pathExists (LockFile.close l s).2.2 l.path = false
          ∧ (LockFile.close l s).2.2.events
              = s.events ++ [.closeCalled (some fd), .removed l.path, .closedFd fd]) := by
  refine ⟨fun hsh hconf => ?_, fun hsh hconf => ?_, fun hsh => ?_⟩
  · obtain ⟨e1, _, e3, _, e5⟩ := close_branchA l s fd h hf hcl hsh hfind hopen hconf hp
    exact ⟨e1, e3, e5⟩
  · obtain ⟨e1, _, e3, _, e5⟩ := close_branchB l s fd h hf hcl hsh hfind hconf
    exact ⟨e1, by rw [e3, hp], e5⟩
  · obtain ⟨e1, _, e3, _, e5⟩ := close_branchC l s fd hf hcl hsh hp
    exact ⟨e1, e3, e5⟩

/-- Concrete inputs for the C4 witness: the sole Shared holder of p4.lock. -/
def wSt4 : St := ⟨[("p4.lock", 0)], [(0, "")], [⟨0, 0, true, some Mode.shared⟩], 1, 1, []⟩

/-- The lock object held on p4.lock in wSt4. -/
def wLk4 : LockFile := ⟨some 0, "p4.lock", true, true⟩

/-- Witness for C4: releasing the last Shared holder upgrades, deletes the
lock-file, and closes the handle, in that order. -/
theorem release_cleanup_deletion_witness :
    (LockFile.close wLk4 wSt4).1 = .ok ()
      ∧ pathExists (LockFile.close wLk4 wSt4).2.2 wLk4.path = false
      ∧ (LockFile.close wLk4 wSt4).2.2.events
          = wSt4.events ++ [.closeCalled (some 0), .flocked 0 Mode.exclusive,
              .removed wLk4.path, .closedFd 0] :=
  (release_cleanup_deletion wLk4 wSt4 0 ⟨0, 0, true, some Mode.shared⟩ rfl rfl
    (by decide) rfl (by decide)).1 rfl (by decide)

/-- Concrete inputs for the C1 counterexample: an Exclusive lock is held
but the lock-file was already removed from the directory by an outside
agent. -/
def cex1Lock : LockFile := ⟨some 0, "p.lock", false, true⟩

/-- The state in which p.lock no longer exists while handle 0 still holds
the lock. -/
def cex1St : St := ⟨[], [(0, "")], [⟨0, 0, true, some Mode.exclusive⟩], 1, 1, []⟩

/-- Counterexample to C1: releasing a held Exclusive lock whose lock-file
was already removed by another process does NOT suppress the deletion
failure: close raises the filesystem error, and the file handle is left
open (not closed last), the _f attribute still set. -/
theorem release_never_fails_cex :
    (LockFile.close cex1Lock cex1St).1 = .error (.osErrorMissing "p.lock")
      ∧ handleIsOpen (LockFile.close cex1Lock cex1St).2.2 0 = true
      ∧ (LockFile.close cex1Lock cex1St).2.1.f = some 0 := by decide

/-- C1 as amended: during release, a failed exclusive-upgrade while
releasing a shared lock is suppressed and the handle is still closed (i);
whenever the deletion branch finds the lock-file present, close returns
successfully and the handle is closed last (ii); but a filesystem deletion
failure (missing lock-file) propagates to the caller and the handle is then
left open (iii). -/
theorem release_deletion_failure (l : LockFile) (s : St) (fd : Nat) (h : HandleObj)
    (hf : l.f = some fd) (hfind : findHandle s fd = some h) (hopen : h.isOpen = true) :
    (l.cleanup = true → l.shared = true →
        flockConflict s fd h.fid Mode.exclusive = true →
        (LockFile.close l s).1 = .ok ()
          ∧ (LockFile.close l s).2.1.f = none
          ∧ handleIsOpen (LockFile.close l s).2.2 fd = false)
    ∧ (l.cleanup = true → pathExists s l.path = true →
        (LockFile.close l s).1 = .ok ()
          ∧ handleIsOpen (LockFile.close l s).2.2 fd = false
          ∧ ∃ pre, (LockFile.close l s).2.2.events
              = s.events ++ (pre ++ [.closedFd fd]))
    ∧ (l.cleanup = true → pathExists s l.path = false →
        (l.shared = false ∨ (l.shared = true ∧ flockConflict s fd h.fid Mode.exclusive = false)) →
        (LockFile.close l s).1 = .error (.osErrorMissing l.path)
          ∧ (LockFile.close l s).2.1 = l
          ∧ handleIsOpen (LockFile.close l s).2.2 fd = true) := by
  refine ⟨fun hcl hsh hconf => ?_, fun hcl hp => ?_, fun hcl hp hbr => ?_⟩
  · obtain ⟨e1, e2, _, e4, _⟩ := close_branchB l s fd h hf hcl hsh hfind hconf
    exact ⟨e1, by rw [e2], e4⟩
  · rcases hsh : l.shared with _ | _
    · obtain ⟨e1, _, _, e4, e5⟩ := close_branchC l s fd hf hcl hsh hp
      exact ⟨e1, e4, [.closeCalled (some fd), .removed l.path], e5⟩
    · rcases hconf : flockConflict s fd h.fid Mode.exclusive with _ | _
      · obtain ⟨e1, _, _, e4, e5⟩ := close_branchA l s fd h hf hcl hsh hfind hopen hconf hp
        exact ⟨e1, e4,
          [.closeCalled (some fd), .flocked fd Mode.exclusive, .removed l.path], e5⟩
      · obtain ⟨e1, _, _, e4, e5⟩ := close_branchB l s fd h hf hcl hsh hfind hconf
        exact ⟨e1, e4, [.closeCalled (some fd), .flockFailed fd Mode.exclusive], e5⟩
  · have hopenS := handleIsOpen_of_find s fd h hfind hopen
    rcases hbr with hsh | ⟨hsh, hconf⟩
    · obtain ⟨e1, e2, e3, _⟩ := close_branchD l s fd hf hcl hsh hp
      exact ⟨e1, e2, by rw [e3, hopenS]⟩
    · obtain ⟨e1, e2, e3, _⟩ := close_branchE l s fd h hf hcl hsh hfind hopen hconf hp
      exact ⟨e1, e2, by rw [e3, hopenS]⟩

/-- Witness for amended C1: at the counterexample input, the deletion
failure indeed propagates, the lock object is unchanged and the handle is
left open. -/
theorem release_deletion_failure_witness :
    (LockFile.close cex1Lock cex1St).1 = .error (.osErrorMissing cex1Lock.path)
      ∧ (LockFile.close cex1Lock cex1St).2.1 = cex1Lock
      ∧ handleIsOpen (LockFile.close cex1Lock cex1St).2.2 0 = true :=
  (release_deletion_failure cex1Lock cex1St 0 ⟨0, 0, true, some Mode.exclusive⟩
    rfl (by decide) rfl).2.2 rfl (by decide) (Or.inl rfl)

/-- C9: Release is idempotent-safe.  After a successful close, the lock
object's _f attribute is cleared, and a second close is a no-op: it returns
success, leaves the lock object unchanged, and has no effect on the
directory, the file contents, or the handle table. -/
theorem close_idempotent (l l' : LockFile) (s s' : St)
    (h1 : LockFile.close l s = (.ok (), l', s')) :
    l'.f = none
      ∧ (LockFile.close l' s').1 = .ok ()
      ∧ (LockFile.close l' s').2.1 = l'
      ∧ (LockFile.close l' s').2.2.dir = s'.dir
      ∧ (LockFile.close l' s').2.2.contents = s'.contents
      ∧ (LockFile.close l' s').2.2.handles = s'.handles := by
  have hlf : l'.f = none := by
    rcases hfE : l.f with _ | fd
    · rw [show LockFile.close l s = (.ok (), l, logEv (.closeCalled l.f) s) from by
        simp [LockFile.close, hfE]] at h1
      have h2 := congrArg (fun x => x.2.1) h1
      simp only at h2
      rw [← h2, hfE]
    · by_cases hcs : (l.cleanup && l.shared) = true
      · rcases hflE : flock fd Mode.exclusive (logEv (.closeCalled (some fd)) s) with ⟨b, sF⟩
        cases b
        · rw [show LockFile.close l s = (.ok (), { l with f := none }, fclose fd sF) from by
            simp [LockFile.close, hfE, hcs, hflE]] at h1
          have h2 := congrArg (fun x => x.2.1) h1
          simp only at h2
          rw [← h2]
        · rcases hrmE : osRemove l.path sF with ⟨b2, sR⟩
          cases b2
          · rw [show LockFile.close l s = (.error (.osErrorMissing l.path), l, sR) from by
              simp [LockFile.close, hfE, hcs, hflE, hrmE]] at h1
            exact absurd (congrArg (fun x => x.1) h1) (by simp)
          · rw [show LockFile.close l s = (.ok (), { l with f := none }, fclose fd sR) from by
              simp [LockFile.close, hfE, hcs, hflE, hrmE]] at h1
            have h2 := congrArg (fun x => x.2.1) h1
            simp only at h2
            rw [← h2]
      · have hcs2 : (l.cleanup && l.shared) = false := by simpa using hcs
        by_cases hc : l.cleanup = true
        · have hshF : l.shared = false := by simpa [hc] using hcs2
          rcases hrmE : osRemove l.path (logEv (.closeCalled (some fd)) s) with ⟨b2, sR⟩
          cases b2
          · rw [show LockFile.close l s = (.error (.osErrorMissing l.path), l, sR) from by
              simp [LockFile.close, hfE, hc, hshF, hrmE]] at h1
            exact absurd (congrArg (fun x => x.1) h1) (by simp)
          · rw [show LockFile.close l s = (.ok (), { l with f := none }, fclose fd sR) from by
              simp [LockFile.close, hfE, hc, hshF, hrmE]] at h1
            have h2 := congrArg (fun x => x.2.1) h1
            simp only at h2
            rw [← h2]
        · have hc2 : l.cleanup = false := by simpa using hc
          rw [show LockFile.close l s
              = (.ok (), { l with f := none }, fclose fd (logEv (.closeCalled (some fd)) s)) from by
            simp [LockFile.close, hfE, hc2]] at h1
          have h2 := congrArg (fun x => x.2.1) h1
          simp only at h2
          rw [← h2]
  refine ⟨hlf, ?_, ?_, ?_, ?_, ?_⟩ <;> simp [LockFile.close, hlf, logEv]

/-- Concrete inputs for the C9 witness: a held exclusive lock on w9.lock. -/
def wLk9 : LockFile := ⟨some 0, "w9.lock", false, true⟩

/-- The state holding w9.lock exclusively through handle 0. -/
def wSt9 : St := ⟨[("w9.lock", 0)], [(0, "")], [⟨0, 0, true, some Mode.exclusive⟩], 1, 1, []⟩

/-- The lock object after the first close of wLk9. -/
def wLk9b : LockFile := ⟨none, "w9.lock", false, true⟩

/-- The state after the first close of wLk9 in wSt9. -/
def wSt9b : St :=
  ⟨[], [(0, "")], [⟨0, 0, false, none⟩], 1, 1,
    [.closeCalled (some 0), .removed "w9.lock", .closedFd 0]⟩

/-- Witness for C9: after closing the held lock on w9.lock, a second close
succeeds and changes nothing. -/
theorem close_idempotent_witness :
    wLk9b.f = none
      ∧ (LockFile.close wLk9b wSt9b).1 = .ok ()
      ∧ (LockFile.close wLk9b wSt9b).2.1 = wLk9b
      ∧ (LockFile.close wLk9b wSt9b).2.2.dir = wSt9b.dir
      ∧ (LockFile.close wLk9b wSt9b).2.2.contents = wSt9b.contents
      ∧ (LockFile.close wLk9b wSt9b).2.2.handles = wSt9b.handles :=
  close_idempotent wLk9 wLk9b wSt9 wSt9b (by decide)

/-! ## Benign event extensions -/

theorem benignExt_refl (s : St) : benignExt s s := ⟨[], by simp, rfl, rfl⟩

theorem benignExt_trans (s t u : St) (h1 : benignExt s t) (h2 : benignExt t u) :
    benignExt s u := by
  obtain ⟨e1, hE1, hc1, hf1⟩ := h1
  obtain ⟨e2, hE2, hc2, hf2⟩ := h2
  exact ⟨e1 ++ e2, by rw [hE2, hE1, List.append_assoc],
    by simp [List.countP_append, hc1, hc2],
    by simp [List.countP_append, hf1, hf2]⟩

theorem closeCount_of_ext (s s' : St) (ext : List Ev)
    (hE : s'.events = s.events ++ ext) (h0 : ext.countP isCloseCalledEv = 0) :
    closeCalledCount s' = closeCalledCount s := by
  simp [closeCalledCount, hE, List.countP_append, h0]

theorem funcCount_of_ext (s s' : St) (ext : List Ev)
    (hE : s'.events = s.events ++ ext) (h0 : ext.countP isFuncCalledEv = 0) :
    funcCalledCount s' = funcCalledCount s := by
  simp [funcCalledCount, hE, List.countP_append, h0]

theorem benignExt_closeCount (s s' : St) (h : benignExt s s') :
    closeCalledCount s' = closeCalledCount s := by
  obtain ⟨ext, hE, hc, _⟩ := h
  exact closeCount_of_ext s s' ext hE hc

theorem benignExt_funcCount (s s' : St) (h : benignExt s s') :
    funcCalledCount s' = funcCalledCount s := by
  obtain ⟨ext, hE, _, hf⟩ := h
  exact funcCount_of_ext s s' ext hE hf

theorem benign_logEv (e : Ev) (s : St) (hc : isCloseCalledEv e = false)
    (hf : isFuncCalledEv e = false) : benignExt s (logEv e s) :=
  ⟨[e], rfl, by simp [hc], by simp [hf]⟩

theorem openAppend_spec (p : String) (s : St) :
    (openAppend p s).1 = s.nextFd
      ∧ (openAppend p s).2.events = s.events ++ [.opened s.nextFd p] := by
  rcases h : lookupDir s p with _ | fid <;> simp [openAppend, h, logEv]

theorem benign_openAppend (p : String) (s : St) : benignExt s (openAppend p s).2 :=
  ⟨[.opened s.nextFd p], (openAppend_spec p s).2, rfl, rfl⟩

theorem benign_flock (fd : Nat) (m : Mode) (s : St) : benignExt s (flock fd m s).2 := by
  unfold flock
  rcases hfE : findHandle s fd with _ | hh
  · exact benign_logEv _ s rfl rfl
  · by_cases hc : (hh.isOpen && !flockConflict s fd hh.fid m) = true
    · simp only [hc, if_true]
      exact benign_logEv _ _ rfl rfl
    · simp only [hc, if_false, Bool.false_eq_true]
      exact benign_logEv _ s rfl rfl

theorem benign_osRemove (p : String) (s : St) : benignExt s (osRemove p s).2 := by
  unfold osRemove
  by_cases hp : pathExists s p = true
  · simp only [hp, if_true]
    exact benign_logEv _ _ rfl rfl
  · simp only [hp, if_false, Bool.false_eq_true]
    exact benign_logEv _ s rfl rfl

theorem fclose_events (fd : Nat) (s : St) :
    (fclose fd s).events = s.events ++ [.closedFd fd] := rfl

theorem benign_fclose (fd : Nat) (s : St) : benignExt s (fclose fd s) :=
  ⟨[.closedFd fd], rfl, rfl, rfl⟩

theorem benign_sleep (d : Nat) (s : St) : benignExt s (sleepSt d s) :=
  benign_logEv _ s rfl rfl

theorem benign_acquire (p : String) (sh cl : Bool) (s : St) :
    benignExt s (LockFile.acquire p sh cl s).2 := by
  unfold LockFile.acquire
  rcases hoE : openAppend p s with ⟨fd, s1⟩
  have hb1 : benignExt s s1 := by
    have := benign_openAppend p s
    rwa [hoE] at this
  rcases hflE : flock fd (modeOf sh) s1 with ⟨b, s2⟩
  have hb2 : benignExt s1 s2 := by
    have := benign_flock fd (modeOf sh) s1
    rwa [hflE] at this
  cases b
  · simp only [hflE]
    exact benignExt_trans _ _ _ (benignExt_trans _ _ _ hb1 hb2) (benign_fclose fd s2)
  · simp only [hflE]
    exact benignExt_trans _ _ _ hb1 hb2

theorem pathExists_flock (fd : Nat) (m : Mode) (s : St) (p : String) :
    pathExists (flock fd m s).2 p = pathExists s p := by
  unfold flock
  rcases hfE : findHandle s fd with _ | hh
  · rfl
  · by_cases hc : (hh.isOpen && !flockConflict s fd hh.fid m) = true
    · simp only [hc, if_true]
      rfl
    · simp only [hc, if_false, Bool.false_eq_true]
      rfl

theorem close_events (l : LockFile) (s : St) :
    ∃ ext, (LockFile.close l s).2.2.events = s.events ++ ext
      ∧ ext.countP isCloseCalledEv = 1 ∧ ext.countP isFuncCalledEv = 0 := by
  have hstep : ∀ t : St, benignExt (logEv (.closeCalled l.f) s) t →
      ∃ ext, t.events = s.events ++ ext
        ∧ ext.countP isCloseCalledEv = 1 ∧ ext.countP isFuncCalledEv = 0 := by
    intro t hb
    obtain ⟨e2, hE, hc, hf⟩ := hb
    refine ⟨.closeCalled l.f :: e2, ?_, ?_, ?_⟩
    · rw [hE]
      simp [logEv]
    · simp [List.countP_cons, hc, isCloseCalledEv]
    · simp [List.countP_cons, hf, isFuncCalledEv]
  rcases hfE : l.f with _ | fd
  · rw [show LockFile.close l s = (.ok (), l, logEv (.closeCalled l.f) s) from by
      simp [LockFile.close, hfE]]
    exact hstep _ (benignExt_refl _)
  · rw [hfE] at hstep
    by_cases hcs : (l.cleanup && l.shared) = true
    · rcases hflE : flock fd Mode.exclusive (logEv (.closeCalled (some fd)) s) with ⟨b, sF⟩
      have hbF : benignExt (logEv (.closeCalled (some fd)) s) sF := by
        have := benign_flock fd Mode.exclusive (logEv (.closeCalled (some fd)) s)
        rwa [hflE] at this
      cases b
      · rw [show LockFile.close l s = (.ok (), { l with f := none }, fclose fd sF) from by
          simp [LockFile.close, hfE, hcs, hflE]]
        exact hstep _ (benignExt_trans _ _ _ hbF (benign_fclose fd sF))
      · rcases hrmE : osRemove l.path sF with ⟨b2, sR⟩
        have hbR : benignExt sF sR := by
          have := benign_osRemove l.path sF
          rwa [hrmE] at this
        cases b2
        · rw [show LockFile.close l s = (.error (.osErrorMissing l.path), l, sR) from by
            simp [LockFile.close, hfE, hcs, hflE, hrmE]]
          exact hstep _ (benignExt_trans _ _ _ hbF hbR)
        · rw [show LockFile.close l s = (.ok (), { l with f := none }, fclose fd sR) from by
            simp [LockFile.close, hfE, hcs, hflE, hrmE]]
          exact hstep _ (benignExt_trans _ _ _ (benignExt_trans _ _ _ hbF hbR)
            (benign_fclose fd sR))
    · have hcs2 : (l.cleanup && l.shared) = false := by simpa using hcs
      by_cases hc : l.cleanup = true
      · have hshF : l.shared = false := by simpa [hc] using hcs2
        rcases hrmE : osRemove l.path (logEv (.closeCalled (some fd)) s) with ⟨b2, sR⟩
        have hbR : benignExt (logEv (.closeCalled (some fd)) s) sR := by
          have := benign_osRemove l.path (logEv (.closeCalled (some fd)) s)
          rwa [hrmE] at this
        cases b2
        · rw [show LockFile.close l s = (.error (.osErrorMissing l.path), l, sR) from by
            simp [LockFile.close, hfE, hc, hshF, hrmE]]
          exact hstep _ hbR
        · rw [show LockFile.close l s = (.ok (), { l with f := none }, fclose fd sR) from by
            simp [LockFile.close, hfE, hc, hshF, hrmE]]
          exact hstep _ (benignExt_trans _ _ _ hbR (benign_fclose fd sR))
      · have hc2 : l.cleanup = false := by simpa using hc
        rw [show LockFile.close l s
            = (.ok (), { l with f := none }, fclose fd (logEv (.closeCalled (some fd)) s)) from by
          simp [LockFile.close, hfE, hc2]]
        exact hstep _ (benign_fclose fd _)

theorem close_ok_of_pathExists (l : LockFile) (s : St) (fd : Nat)
    (hf : l.f = some fd) (hp : pathExists s l.path = true) :
    (LockFile.close l s).1 = .ok () := by
  by_cases hcs : (l.cleanup && l.shared) = true
  · rcases hflE : flock fd Mode.exclusive (logEv (.closeCalled (some fd)) s) with ⟨b, sF⟩
    cases b
    · simp [LockFile.close, hf, hcs, hflE]
    · have hpF : pathExists sF l.path = true := by
        have := pathExists_flock fd Mode.exclusive (logEv (.closeCalled (some fd)) s) l.path
        rw [hflE] at this
        rw [this]
        exact hp
      have hrm := osRemove_exists_eq sF l.path hpF
      rcases hrmE : osRemove l.path sF with ⟨b2, sR⟩
      rw [hrmE, Prod.mk.injEq] at hrm
      obtain ⟨hb2, _⟩ := hrm
      subst hb2
      simp [LockFile.close, hf, hcs, hflE, hrmE]
  · have hcs2 : (l.cleanup && l.shared) = false := by simpa using hcs
    by_cases hc : l.cleanup = true
    · have hshF : l.shared = false := by simpa [hc] using hcs2
      have hp0 : pathExists (logEv (.closeCalled (some fd)) s) l.path = true := hp
      have hrm := osRemove_exists_eq (logEv (.closeCalled (some fd)) s) l.path hp0
      rcases hrmE : osRemove l.path (logEv (.closeCalled (some fd)) s) with ⟨b2, sR⟩
      rw [hrmE, Prod.mk.injEq] at hrm
      obtain ⟨hb2, _⟩ := hrm
      subst hb2
      simp [LockFile.close, hf, hc, hshF, hrmE]
    · have hc2 : l.cleanup = false := by simpa using hc
      simp [LockFile.close, hf, hc2]

theorem loop_benign (p : String) (sh : Bool) (d : Nat) :
    ∀ (n : Nat) (s : St),
      benignExt s (acquireLoop (fun s2 => LockFile.acquire p sh true s2)
        (sleepSt d) n s).2 := by
  intro n
  induction n with
  | zero => intro s; exact benignExt_refl s
  | succ m ih =>
      intro s
      rcases haE : LockFile.acquire p sh true s with ⟨r, s1⟩
      have hb1 : benignExt s s1 := by
        have := benign_acquire p sh true s
        rwa [haE] at this
      rcases r with e | l
      · rcases e with q | q | v | _ | _ <;> simp only [acquireLoop, haE]
        · by_cases hn : 0 < m
          · simp only [hn, if_true]
            exact benignExt_trans _ _ _ (benignExt_trans _ _ _ hb1 (benign_sleep d s1)) (ih _)
          · simp only [hn, if_false]
            exact benignExt_trans _ _ _ hb1 (ih _)
        · exact hb1
        · exact hb1
        · exact hb1
        · exact hb1
      · simp only [acquireLoop, haE]
        exact hb1

/-- C2: in the lockfile context manager, whatever the protected block does
(any state-transforming block that does not itself invoke a release), if a
lock was obtained its close is invoked exactly once before the scope
exits, and if no lock was obtained no release is attempted: the number of
close invocations in the final state is the initial number plus one
exactly when the acquisition phase yielded a lock. -/
theorem scoped_release_exactly_once {α : Type} (p : String) (mR rD : Nat) (sh : Bool)
    (error : PyVal) (body : Option LockFile → St → Except Err α × St) (s : St)
    (hbody : ∀ o s2, ∃ ext, ((body o s2).2).events = s2.events ++ ext
        ∧ ext.countP isCloseCalledEv = 0) :
    closeCalledCount (lockfile (PyVal.str p) mR rD sh error body s).2
      = closeCalledCount s
        + (match (lockfileAcq (p ++ ".lock") mR rD sh s).1 with
           | .ok (some _) => 1
           | _ => 0) := by
  rcases hacqE : lockfileAcq (p ++ ".lock") mR rD sh s with ⟨r, s1⟩
  have hc1 : closeCalledCount s1 = closeCalledCount s := by
    have hb := loop_benign (p ++ ".lock") sh rD (1 + mR) s
    rw [show acquireLoop (fun s2 => LockFile.acquire (p ++ ".lock") sh true s2)
        (sleepSt rD) (1 + mR) s = lockfileAcq (p ++ ".lock") mR rD sh s from rfl,
      hacqE] at hb
    exact benignExt_closeCount _ _ hb
  simp only [lockfile, hacqE]
  rcases r with e | lockOpt
  · simpa using hc1
  · rcases lockOpt with _ | l
    · by_cases herr : pyTruthy error = true
      · simpa [herr] using hc1
      · have herr2 : pyTruthy error = false := by simpa using herr
        obtain ⟨ext, hE, h0⟩ := hbody none s1
        simp only [herr2, Bool.false_and, if_false, Option.isNone_none, Bool.and_true,
          Bool.false_eq_true]
        rw [closeCount_of_ext s1 _ ext hE h0, hc1]
        rfl
    · rcases hbE : body (some l) s1 with ⟨res, s2⟩
      obtain ⟨ext, hE, h0⟩ := hbody (some l) s1
      rw [hbE] at hE
      have hc2 : closeCalledCount s2 = closeCalledCount s1 :=
        closeCount_of_ext s1 s2 ext hE h0
      rcases hclE : LockFile.close l s2 with ⟨cr, l2, s3⟩
      obtain ⟨ext2, hE2, h1, _⟩ := close_events l s2
      rw [hclE] at hE2
      have hE2b : s3.events = s2.events ++ ext2 := hE2
      have hc3 : closeCalledCount s3 = closeCalledCount s2 + 1 := by
        simp [closeCalledCount, hE2b, List.countP_append, h1]
      simp only [Option.isNone_some, Bool.and_false, if_false, hbE, hclE,
        Bool.false_eq_true]
      rcases cr with e2 | u <;> simp only
      · rw [hc3, hc2, hc1]
      · rw [hc3, hc2, hc1]

/-- The empty world: no files, no handles. -/
def stEmpty : St := ⟨[], [], [], 0, 0, []⟩

/-- A protected block that just returns the lock-or-sentinel it was given. -/
def pureBody : Option LockFile → St → Except Err (Option LockFile) × St :=
  fun o s2 => (.ok o, s2)

/-- Witness for C2: on the empty world the lock is obtained and close is
invoked exactly once. -/
theorem scoped_release_exactly_once_witness :
    closeCalledCount (lockfile (PyVal.str "c2p") 0 0 false PyVal.none pureBody stEmpty).2
      = closeCalledCount stEmpty
        + (match (lockfileAcq ("c2p" ++ ".lock") 0 0 false stEmpty).1 with
           | .ok (some _) => 1
           | _ => 0) :=
  scoped_release_exactly_once "c2p" 0 0 false PyVal.none pureBody stEmpty
    (fun _ s2 => ⟨[], by simp [pureBody], rfl⟩)

theorem flock_false_state (fd : Nat) (m : Mode) (s s2 : St)
    (h : flock fd m s = (false, s2)) : s2 = logEv (.flockFailed fd m) s := by
  unfold flock at h
  rcases hfE : findHandle s fd with _ | hh
  · rw [hfE] at h
    cases h
    rfl
  · rw [hfE] at h
    by_cases hc : (hh.isOpen && !flockConflict s fd hh.fid m) = true
    · simp only [hc, if_true] at h
      exact absurd (congrArg Prod.fst h) (by simp)
    · have hc2 : (hh.isOpen && !flockConflict s fd hh.fid m) = false := by simpa using hc
      simp only [hc2, Bool.false_eq_true, if_false] at h
      cases h
      rfl

theorem acquire_err_char (p : String) (sh cl : Bool) (s : St) (e : Err) (s' : St)
    (h1 : LockFile.acquire p sh cl s = (.error e, s')) :
    e = .lockError p
      ∧ s'.events = s.events ++ [.opened s.nextFd p,
          .flockFailed s.nextFd (modeOf sh), .closedFd s.nextFd]
      ∧ handleIsOpen s' s.nextFd = false := by
  obtain ⟨hfd, hev⟩ := openAppend_spec p s
  rcases hoE : openAppend p s with ⟨fd, s1⟩
  rw [hoE] at hfd hev
  simp only at hfd hev
  subst hfd
  rcases hflE : flock s.nextFd (modeOf sh) s1 with ⟨b, s2⟩
  cases b
  · rw [show LockFile.acquire p sh cl s = (.error (.lockError p), fclose s.nextFd s2) from by
      simp [LockFile.acquire, hoE, hflE]] at h1
    rw [Prod.mk.injEq] at h1
    obtain ⟨he, hs⟩ := h1
    injection he with he2
    have hs2 := flock_false_state s.nextFd (modeOf sh) s1 s2 hflE
    refine ⟨he2.symm, ?_, ?_⟩
    · rw [← hs, fclose_events, hs2]
      simp [logEv, hev]
    · rw [← hs]
      exact handleIsOpen_fclose s2 s.nextFd
  · rw [show LockFile.acquire p sh cl s
        = (.ok ⟨some s.nextFd, p, sh, cl⟩, s2) from by
      simp [LockFile.acquire, hoE, hflE]] at h1
    exact absurd (congrArg Prod.fst h1) (by simp)

theorem loop_no_error (p : String) (sh : Bool) (d : Nat) :
    ∀ (n : Nat) (s : St), ∃ o s1,
      acquireLoop (fun s2 => LockFile.acquire p sh true s2) (sleepSt d) n s
        = (.ok o, s1) := by
  intro n
  induction n with
  | zero => intro s; exact ⟨none, s, rfl⟩
  | succ m ih =>
      intro s
      rcases haE : LockFile.acquire p sh true s with ⟨r, s1⟩
      rcases r with e | l
      · obtain ⟨he, _, _⟩ := acquire_err_char p sh true s e s1 haE
        subst he
        simp only [acquireLoop, haE]
        exact ih _
      · exact ⟨some l, s1, by simp [acquireLoop, haE]⟩

theorem close_not_lockErr (l : LockFile) (s : St) :
    isLockErr (LockFile.close l s).1 = false := by
  rcases hfE : l.f with _ | fd
  · simp [LockFile.close, hfE, isLockErr]
  · by_cases hcs : (l.cleanup && l.shared) = true
    · rcases hflE : flock fd Mode.exclusive (logEv (.closeCalled (some fd)) s) with ⟨b, sF⟩
      cases b
      · simp [LockFile.close, hfE, hcs, hflE, isLockErr]
      · rcases hrmE : osRemove l.path sF with ⟨b2, sR⟩
        cases b2 <;> simp [LockFile.close, hfE, hcs, hflE, hrmE, isLockErr]
    · have hcs2 : (l.cleanup && l.shared) = false := by simpa using hcs
      by_cases hc : l.cleanup = true
      · have hshF : l.shared = false := by simpa [hc] using hcs2
        rcases hrmE : osRemove l.path (logEv (.closeCalled (some fd)) s) with ⟨b2, sR⟩
        cases b2 <;> simp [LockFile.close, hfE, hc, hshF, hrmE, isLockErr]
      · have hc2 : l.cleanup = false := by simpa using hc
        simp [LockFile.close, hfE, hc2, isLockErr]

theorem lockfile_not_lockErr {α : Type} (p : String) (mR rD : Nat) (sh : Bool)
    (error : PyVal) (body : Option LockFile → St → Except Err α × St) (s : St)
    (hb : ∀ o s2, isLockErr (body o s2).1 = false) :
    isLockErr (lockfile (PyVal.str p) mR rD sh error body s).1 = false := by
  obtain ⟨o, s1, hE⟩ := loop_no_error (p ++ ".lock") sh rD (1 + mR) s
  have hE2 : lockfileAcq (p ++ ".lock") mR rD sh s = (.ok o, s1) := hE
  simp only [lockfile, hE2]
  rcases o with _ | l
  · by_cases herr : pyTruthy error = true
    · simp only [herr, Option.isNone_none, Bool.and_true, if_true]
      rcases error with _ | b | n | v | nm <;> simp [pyRaise, isLockErr]
    · have herr2 : pyTruthy error = false := by simpa using herr
      simp only [herr2, Bool.false_and, if_false, Bool.false_eq_true]
      exact hb none s1
  · rcases hbE : body (some l) s1 with ⟨res, s2⟩
    rcases hclE : LockFile.close l s2 with ⟨cr, l2, s3⟩
    simp only [Option.isNone_some, Bool.and_false, if_false, hbE, hclE, Bool.false_eq_true]
    rcases cr with e2 | u
    · have hcl2 := close_not_lockErr l s2
      rw [hclE] at hcl2
      rcases e2 with q | q | v | _ | _
      · simp [isLockErr] at hcl2
      · simp [isLockErr]
      · simp [isLockErr]
      · simp [isLockErr]
      · simp [isLockErr]
    · have := hb (some l) s1
      rw [hbE] at this
      simpa using this

/-- C7: when a single non-blocking Acquire attempt fails, the just-opened
handle is closed immediately and the only failure raised is LockError
carrying the lock path; the retry loop catches every such failure, so the
acquisition phase always returns (no exception escapes it), and the context
manager never lets a LockError reach its caller (for any protected block
that does not itself produce one). -/
theorem acquire_failure_contained :
    (∀ (lp : String) (sh cl : Bool) (s : St) (e : Err) (s' : St),
        LockFile.acquire lp sh cl s = (.error e, s') →
        e = .lockError lp
          ∧ s'.events = s.events ++ [.opened s.nextFd lp,
              .flockFailed s.nextFd (modeOf sh), .closedFd s.nextFd]
          ∧ handleIsOpen s' s.nextFd = false)
    ∧ (∀ (lp : String) (mR rD : Nat) (sh : Bool) (s : St),
        ∃ o s1, lockfileAcq lp mR rD sh s = (.ok o, s1))
    ∧ (∀ (α : Type) (p : String) (mR rD : Nat) (sh : Bool) (error : PyVal)
          (body : Option LockFile → St → Except Err α × St) (s : St),
        (∀ o s2, isLockErr (body o s2).1 = false) →
        isLockErr (lockfile (PyVal.str p) mR rD sh error body s).1 = false) :=
  ⟨acquire_err_char,
   fun lp mR rD sh s => loop_no_error lp sh rD (1 + mR) s,
   fun _ p mR rD sh error body s hb =>
     lockfile_not_lockErr p mR rD sh error body s hb⟩

/-- Concrete input for the C7 witness: p7.lock exists and is exclusively
held by another process through handle 0. -/
def wSt7 : St := ⟨[("p7.lock", 0)], [(0, "")], [⟨0, 0, true, some Mode.exclusive⟩], 1, 1, []⟩

/-- The state after the failed acquisition attempt in wSt7. -/
def wSt7b : St :=
  ⟨[("p7.lock", 0)], [(0, "")],
    [⟨0, 0, true, some Mode.exclusive⟩, ⟨1, 0, false, none⟩], 2, 1,
    [.opened 1 "p7.lock", .flockFailed 1 Mode.exclusive, .closedFd 1]⟩

/-- Witness for C7: on the contended state the single attempt raises
LockError carrying p7.lock and leaves its own handle closed. -/
theorem acquire_failure_contained_witness :
    Err.lockError "p7.lock" = Err.lockError "p7.lock"
      ∧ wSt7b.events = wSt7.events ++ [.opened 1 "p7.lock",
          .flockFailed 1 (modeOf false), .closedFd 1]
      ∧ handleIsOpen wSt7b 1 = false :=
  acquire_failure_contained.1 "p7.lock" false true wSt7
    (Err.lockError "p7.lock") wSt7b (by decide)

/-! ## Failure invariants of a contended acquisition -/

theorem find?_fd_append_new (hs : List HandleObj) (nh : HandleObj)
    (hno : ∀ h ∈ hs, (h.fd == nh.fd) = false) :
    (hs ++ [nh]).find? (fun h => h.fd == nh.fd) = some nh := by
  rw [List.find?_append]
  rw [List.find?_eq_none.mpr (fun x hx => by simp [hno x hx])]
  simp [List.find?]

theorem map_update_append_new (hs : List HandleObj) (nh : HandleObj)
    (g : HandleObj → HandleObj)
    (hno : ∀ h ∈ hs, (h.fd == nh.fd) = false) :
    ((hs ++ [nh]).map (fun h => if h.fd == nh.fd then g h else h))
      = hs ++ [g nh] := by
  rw [List.map_append]
  congr 1
  · calc hs.map (fun h => if h.fd == nh.fd then g h else h)
        = hs.map id := List.map_congr_left (fun a ha => by simp [hno a ha])
      _ = hs := List.map_id hs
  · simp

theorem canAcquire_false_elim (p : String) (m : Mode) (s : St)
    (h : canAcquire p m s = false) :
    ∃ fid, lookupDir s p = some fid
      ∧ s.handles.any
          (fun h2 => h2.isOpen && h2.fid == fid && incompatible h2.lock m) = true := by
  unfold canAcquire at h
  rcases hl : lookupDir s p with _ | fid
  · rw [hl] at h
    simp at h
  · rw [hl] at h
    exact ⟨fid, rfl, by simpa using h⟩

theorem acquire_fail_inv (p : String) (sh cl : Bool) (s : St)
    (hconf : canAcquire p (modeOf sh) s = false) (hwf : wfSt s) :
    ∃ s', LockFile.acquire p sh cl s = (.error (.lockError p), s')
      ∧ canAcquire p (modeOf sh) s' = false
      ∧ wfSt s'
      ∧ benignExt s s' := by
  obtain ⟨fid, hl, hA⟩ := canAcquire_false_elim p (modeOf sh) s hconf
  have hoE : openAppend p s = (s.nextFd,
      logEv (.opened s.nextFd p)
        { s with handles := s.handles ++ [⟨s.nextFd, fid, true, none⟩],
                 nextFd := s.nextFd + 1 }) := by
    simp [openAppend, hl]
  set s1 := logEv (.opened s.nextFd p)
      { s with handles := s.handles ++ [⟨s.nextFd, fid, true, none⟩],
               nextFd := s.nextFd + 1 } with hs1
  have hno : ∀ h2 ∈ s.handles, (h2.fd == s.nextFd) = false := by
    intro h2 hm
    have := (hwf.1 h2 hm).1
    simp [Nat.ne_of_lt this]
  have hfind : findHandle s1 s.nextFd = some ⟨s.nextFd, fid, true, none⟩ :=
    find?_fd_append_new s.handles ⟨s.nextFd, fid, true, none⟩ hno
  have hcf : flockConflict s1 s.nextFd fid (modeOf sh) = true := by
    unfold flockConflict
    rw [List.any_eq_true]
    obtain ⟨x, hx, hpx⟩ := List.any_eq_true.mp hA
    refine ⟨x, ?_, ?_⟩
    · show x ∈ s.handles ++ [(⟨s.nextFd, fid, true, none⟩ : HandleObj)]
      exact List.mem_append_left _ hx
    · have hne : (x.fd != s.nextFd) = true := by
        have := (hwf.1 x hx).1
        simp [Nat.ne_of_lt this]
      have hpx2 := hpx
      simp only [Bool.and_eq_true] at hpx2
      obtain ⟨⟨ho, hfi⟩, hinc⟩ := hpx2
      simp [hne, ho, hfi, hinc]
  have hflE : flock s.nextFd (modeOf sh) s1
      = (false, logEv (.flockFailed s.nextFd (modeOf sh)) s1) := by
    simp [flock, hfind, hcf]
  have hmap : (fclose s.nextFd (logEv (.flockFailed s.nextFd (modeOf sh)) s1)).handles
      = s.handles ++ [(⟨s.nextFd, fid, false, none⟩ : HandleObj)] :=
    map_update_append_new s.handles ⟨s.nextFd, fid, true, none⟩
      (fun h => { h with isOpen := false, lock := none }) hno
  have hfidlt : fid < s.nextFid := by
    unfold lookupDir at hl
    rcases hfd2 : s.dir.find? (fun pr => pr.1 == p) with _ | pr
    · rw [hfd2] at hl
      simp at hl
    · rw [hfd2] at hl
      simp at hl
      have hm2 := List.mem_of_find?_eq_some hfd2
      have := hwf.2.1 pr hm2
      omega
  refine ⟨fclose s.nextFd (logEv (.flockFailed s.nextFd (modeOf sh)) s1), ?_, ?_, ?_, ?_⟩
  · simp [LockFile.acquire, hoE, hflE]
  · have hl' : lookupDir (fclose s.nextFd (logEv (.flockFailed s.nextFd (modeOf sh)) s1)) p
        = some fid := hl
    unfold canAcquire
    simp only [hl', hmap]
    have hA2 : (s.handles ++ [(⟨s.nextFd, fid, false, none⟩ : HandleObj)]).any
        (fun h2 => h2.isOpen && h2.fid == fid && incompatible h2.lock (modeOf sh)) = true := by
      rw [List.any_eq_true]
      obtain ⟨x, hx, hpx⟩ := List.any_eq_true.mp hA
      exact ⟨x, List.mem_append_left _ hx, hpx⟩
    simp [hA2]
  · refine ⟨?_, ?_, ?_⟩
    · intro h2 hm
      rw [hmap] at hm
      rcases List.mem_append.mp hm with hold | hnew
      · have := hwf.1 h2 hold
        exact ⟨by show h2.fd < s.nextFd + 1; omega, this.2⟩
      · rw [List.mem_singleton] at hnew
        subst hnew
        exact ⟨Nat.lt_succ_self _, hfidlt⟩
    · exact hwf.2.1
    · exact hwf.2.2
  · refine ⟨[.opened s.nextFd p, .flockFailed s.nextFd (modeOf sh), .closedFd s.nextFd],
      ?_, rfl, rfl⟩
    show (fclose s.nextFd (logEv (.flockFailed s.nextFd (modeOf sh)) s1)).events = _
    rw [fclose_events]
    show (s1.events ++ [Ev.flockFailed s.nextFd (modeOf sh)]) ++ [Ev.closedFd s.nextFd] = _
    show ((s.events ++ [Ev.opened s.nextFd p]) ++ [Ev.flockFailed s.nextFd (modeOf sh)])
      ++ [Ev.closedFd s.nextFd] = _
    simp

theorem loop_fail (p : String) (sh : Bool) (d : Nat) :
    ∀ (n : Nat) (s : St), canAcquire p (modeOf sh) s = false → wfSt s →
      ∃ s1, acquireLoop (fun s2 => LockFile.acquire p sh true s2) (sleepSt d) n s
        = (.ok none, s1) ∧ benignExt s s1 := by
  intro n
  induction n with
  | zero => intro s _ _; exact ⟨s, rfl, benignExt_refl s⟩
  | succ m ih =>
      intro s hconf hwf
      obtain ⟨s', hacq, hconf', hwf', hben⟩ := acquire_fail_inv p sh true s hconf hwf
      by_cases hm : 0 < m
      · obtain ⟨s1, hrec, hb2⟩ := ih (sleepSt d s') hconf' hwf'
        refine ⟨s1, ?_, ?_⟩
        · simp only [acquireLoop, hacq, hm, if_true]
          exact hrec
        · exact benignExt_trans _ _ _ (benignExt_trans _ _ _ hben (benign_sleep d s')) hb2
      · obtain ⟨s1, hrec, hb2⟩ := ih s' hconf' hwf'
        refine ⟨s1, ?_, ?_⟩
        · simp only [acquireLoop, hacq, hm, if_false]
          exact hrec
        · exact benignExt_trans _ _ _ hben hb2

/-- C10: in the lockfile context manager the configured error is raised on
unavailability only when it is truthy: for every falsy error value (None,
0, empty string, False) and every contended state, the protected block is
invoked with the None sentinel instead of the error being raised. -/
theorem falsy_error_yields_sentinel {α : Type} (p : String) (mR rD : Nat) (sh : Bool)
    (error : PyVal) (body : Option LockFile → St → Except Err α × St) (s : St)
    (herr : pyTruthy error = false)
    (hconf : canAcquire (p ++ ".lock") (modeOf sh) s = false)
    (hwf : wfSt s) :
    ∃ s1, lockfile (PyVal.str p) mR rD sh error body s = body none s1 := by
  obtain ⟨s1, hloop, _⟩ := loop_fail (p ++ ".lock") sh rD (1 + mR) s hconf hwf
  have hE : lockfileAcq (p ++ ".lock") mR rD sh s = (.ok none, s1) := hloop
  refine ⟨s1, ?_⟩
  simp only [lockfile, hE, herr, Bool.false_and, if_false, Bool.false_eq_true]

/-- Concrete input for the C10 witness: w10.lock exists and is exclusively
held by another process. -/
def wSt10 : St := ⟨[("w10.lock", 0)], [(0, "")], [⟨0, 0, true, some Mode.exclusive⟩], 1, 1, []⟩

/-- Witness for C10: with the falsy error value 0 and a contended lock, the
protected block runs with the None sentinel and nothing is raised. -/
theorem falsy_error_yields_sentinel_witness :
    ∃ s1, lockfile (PyVal.str "w10") 0 3 false (PyVal.int 0) pureBody wSt10
      = pureBody none s1 :=
  falsy_error_yields_sentinel "w10" 0 3 false (PyVal.int 0) pureBody wSt10
    (by decide) (by decide) (by refine ⟨?_, ?_, ?_⟩ <;> decide)

theorem acquire_succ_inv (p : String) (sh cl : Bool) (s : St)
    (hcan : canAcquire p (modeOf sh) s = true) (hwf : wfSt s) :
    ∃ s1 fid, LockFile.acquire p sh cl s = (.ok ⟨some s.nextFd, p, sh, cl⟩, s1)
      ∧ lookupDir s1 p = some fid
      ∧ findHandle s1 s.nextFd = some ⟨s.nextFd, fid, true, some (modeOf sh)⟩
      ∧ pathExists s1 p = true
      ∧ benignExt s s1
      ∧ (∀ fid0, lookupDir s p = some fid0 →
          fid = fid0 ∧ contentsOf s1 fid0 = contentsOf s fid0)
      ∧ (lookupDir s p = none → fid = s.nextFid ∧ contentsOf s1 s.nextFid = some "") := by
  have hno : ∀ h2 ∈ s.handles, (h2.fd == s.nextFd) = false := by
    intro h2 hm
    have := (hwf.1 h2 hm).1
    simp [Nat.ne_of_lt this]
  rcases hl : lookupDir s p with _ | fid0
  · -- the lock file does not exist yet: created fresh
    have hoE : openAppend p s = (s.nextFd,
        logEv (.opened s.nextFd p)
          { s with dir := s.dir ++ [(p, s.nextFid)],
                   contents := s.contents ++ [(s.nextFid, "")],
                   handles := s.handles ++ [⟨s.nextFd, s.nextFid, true, none⟩],
                   nextFd := s.nextFd + 1,
                   nextFid := s.nextFid + 1 }) := by
      simp [openAppend, hl]
    set s1a := logEv (.opened s.nextFd p)
        { s with dir := s.dir ++ [(p, s.nextFid)],
                 contents := s.contents ++ [(s.nextFid, "")],
                 handles := s.handles ++ [⟨s.nextFd, s.nextFid, true, none⟩],
                 nextFd := s.nextFd + 1,
                 nextFid := s.nextFid + 1 } with hs1a
    have hfind : findHandle s1a s.nextFd = some ⟨s.nextFd, s.nextFid, true, none⟩ :=
      find?_fd_append_new s.handles ⟨s.nextFd, s.nextFid, true, none⟩ hno
    have hcf : flockConflict s1a s.nextFd s.nextFid (modeOf sh) = false := by
      unfold flockConflict
      rw [List.any_eq_false]
      intro x hx
      rcases List.mem_append.mp hx with hold | hnew
      · intro h4
        simp only [Bool.and_eq_true] at h4
        have hlt := (hwf.1 x hold).2
        have := h4.1.2
        rw [beq_iff_eq] at this
        omega
      · rw [List.mem_singleton] at hnew
        subst hnew
        intro h4
        simp at h4
    have hfl : flock s.nextFd (modeOf sh) s1a
        = (true, logEv (.flocked s.nextFd (modeOf sh))
            { s1a with handles := (s1a.handles.map
                (fun h2 => if h2.fd == s.nextFd then { h2 with lock := some (modeOf sh) }
                  else h2)) }) := by
      simp [flock, hfind, hcf]
    have hmap : ((s1a.handles.map
        (fun h2 => if h2.fd == s.nextFd then { h2 with lock := some (modeOf sh) } else h2)))
        = s.handles ++ [(⟨s.nextFd, s.nextFid, true, some (modeOf sh)⟩ : HandleObj)] :=
      map_update_append_new s.handles ⟨s.nextFd, s.nextFid, true, none⟩
        (fun h => { h with lock := some (modeOf sh) }) hno
    have hdirfind : s.dir.find? (fun pr => pr.1 == p) = none := by
      unfold lookupDir at hl
      rcases hfd2 : s.dir.find? (fun pr => pr.1 == p) with _ | pr
      · exact hfd2
      · rw [hfd2] at hl
        simp at hl
    refine ⟨logEv (.flocked s.nextFd (modeOf sh))
        { s1a with handles := (s1a.handles.map
            (fun h2 => if h2.fd == s.nextFd then { h2 with lock := some (modeOf sh) }
              else h2)) },
      s.nextFid, ?_, ?_, ?_, ?_, ?_, ?_, ?_⟩
    · simp [LockFile.acquire, hoE, hfl]
    · show ((((s.dir ++ [(p, s.nextFid)]).find? (fun pr => pr.1 == p)).map
        (fun pr => pr.2))) = some s.nextFid
      rw [List.find?_append, hdirfind]
      simp [List.find?]
    · show ((s1a.handles.map
        (fun h2 => if h2.fd == s.nextFd then { h2 with lock := some (modeOf sh) } else h2)).find?
          (fun h2 => h2.fd == s.nextFd)) = _
      rw [hmap]
      exact find?_fd_append_new s.handles ⟨s.nextFd, s.nextFid, true, some (modeOf sh)⟩ hno
    · show ((((s.dir ++ [(p, s.nextFid)]).find? (fun pr => pr.1 == p)).map
        (fun pr => pr.2))).isSome = true
      rw [List.find?_append, hdirfind]
      simp [List.find?]
    · refine ⟨[.opened s.nextFd p, .flocked s.nextFd (modeOf sh)], ?_, rfl, rfl⟩
      show ((s.events ++ [Ev.opened s.nextFd p]) ++ [Ev.flocked s.nextFd (modeOf sh)]) = _
      simp
    · intro fid0 h0
      simp at h0
    · intro _
      refine ⟨rfl, ?_⟩
      show (((s.contents ++ [(s.nextFid, "")]).find? (fun pr => pr.1 == s.nextFid)).map
        (fun pr => pr.2)) = some ""
      rw [List.find?_append, List.find?_eq_none.mpr (fun x hx => by
        have := hwf.2.2 x hx
        simp [Nat.ne_of_lt this])]
      simp [List.find?]
  · -- the lock file exists with identity fid0
    have hA : s.handles.any
        (fun h2 => h2.isOpen && h2.fid == fid0 && incompatible h2.lock (modeOf sh)) = false := by
      unfold canAcquire at hcan
      rw [hl] at hcan
      simpa using hcan
    have hoE : openAppend p s = (s.nextFd,
        logEv (.opened s.nextFd p)
          { s with handles := s.handles ++ [⟨s.nextFd, fid0, true, none⟩],
                   nextFd := s.nextFd + 1 }) := by
      simp [openAppend, hl]
    set s1a := logEv (.opened s.nextFd p)
        { s with handles := s.handles ++ [⟨s.nextFd, fid0, true, none⟩],
                 nextFd := s.nextFd + 1 } with hs1a
    have hfind : findHandle s1a s.nextFd = some ⟨s.nextFd, fid0, true, none⟩ :=
      find?_fd_append_new s.handles ⟨s.nextFd, fid0, true, none⟩ hno
    have hcf : flockConflict s1a s.nextFd fid0 (modeOf sh) = false := by
      unfold flockConflict
      rw [List.any_eq_false]
      intro x hx
      rcases List.mem_append.mp hx with hold | hnew
      · have h3 := List.any_eq_false.mp hA x hold
        intro h4
        apply h3
        simp only [Bool.and_eq_true] at h4 ⊢
        exact ⟨⟨h4.1.1.2, h4.1.2⟩, h4.2⟩
      · rw [List.mem_singleton] at hnew
        subst hnew
        intro h4
        simp at h4
    have hfl : flock s.nextFd (modeOf sh) s1a
        = (true, logEv (.flocked s.nextFd (modeOf sh))
            { s1a with handles := (s1a.handles.map
                (fun h2 => if h2.fd == s.nextFd then { h2 with lock := some (modeOf sh) }
                  else h2)) }) := by
      simp [flock, hfind, hcf]
    have hmap : ((s1a.handles.map
        (fun h2 => if h2.fd == s.nextFd then { h2 with lock := some (modeOf sh) } else h2)))
        = s.handles ++ [(⟨s.nextFd, fid0, true, some (modeOf sh)⟩ : HandleObj)] :=
      map_update_append_new s.handles ⟨s.nextFd, fid0, true, none⟩
        (fun h => { h with lock := some (modeOf sh) }) hno
    refine ⟨logEv (.flocked s.nextFd (modeOf sh))
        { s1a with handles := (s1a.handles.map
            (fun h2 => if h2.fd == s.nextFd then { h2 with lock := some (modeOf sh) }
              else h2)) },
      fid0, ?_, ?_, ?_, ?_, ?_, ?_, ?_⟩
    · simp [LockFile.acquire, hoE, hfl]
    · exact hl
    · show ((s1a.handles.map
        (fun h2 => if h2.fd == s.nextFd then { h2 with lock := some (modeOf sh) } else h2)).find?
          (fun h2 => h2.fd == s.nextFd)) = _
      rw [hmap]
      exact find?_fd_append_new s.handles ⟨s.nextFd, fid0, true, some (modeOf sh)⟩ hno
    · show (lookupDir s p).isSome = true
      rw [hl]
      rfl
    · refine ⟨[.opened s.nextFd p, .flocked s.nextFd (modeOf sh)], ?_, rfl, rfl⟩
      show ((s.events ++ [Ev.opened s.nextFd p]) ++ [Ev.flocked s.nextFd (modeOf sh)]) = _
      simp
    · intro fid0b h0
      injection h0 with h0b
      refine ⟨h0b, ?_⟩
      subst h0b
      rfl
    · intro h0
      simp at h0

theorem loop_succ_first (p : String) (sh : Bool) (d : Nat) (n : Nat) (s : St)
    (hn : 0 < n) (l : LockFile) (s1 : St)
    (ha : LockFile.acquire p sh true s = (.ok l, s1)) :
    acquireLoop (fun s2 => LockFile.acquire p sh true s2) (sleepSt d) n s
      = (.ok (some l), s1) := by
  cases n with
  | zero => omega
  | succ m => simp [acquireLoop, ha]

/-- C6: for every call of a lockfunc-wrapped function: when the lock can be
acquired, the target function is invoked (exactly once) on the original
positional and keyword arguments and its result is returned unchanged; when
the lock is unavailable and the configured error is falsy (e.g. the None
default), the marker is returned and the target is not invoked; when the
lock is unavailable and an exception is configured as the error, that
exception propagates and the target is not invoked. -/
theorem guarded_call_behavior (path : PyVal) (mR rD : Nat) (sh : Bool)
    (marker error : PyVal) (func : List PyVal → List (String × PyVal) → PyVal)
    (args : List PyVal) (kwargs : List (String × PyVal)) (s : St) (p : String)
    (hres : resolvePath path args = some (PyVal.str p)) (hwf : wfSt s) :
    (canAcquire (p ++ ".lock") (modeOf sh) s = true →
        (lockfunc path mR rD sh marker error func args kwargs s).1
            = .ok (func args kwargs)
          ∧ funcCalledCount (lockfunc path mR rD sh marker error func args kwargs s).2
            = funcCalledCount s + 1)
    ∧ (canAcquire (p ++ ".lock") (modeOf sh) s = false → pyTruthy error = false →
        ∃ s1, lockfunc path mR rD sh marker error func args kwargs s = (.ok marker, s1)
          ∧ funcCalledCount s1 = funcCalledCount s)
    ∧ (∀ nm, error = PyVal.exc nm →
        canAcquire (p ++ ".lock") (modeOf sh) s = false →
        ∃ s1, lockfunc path mR rD sh marker error func args kwargs s
            = (.error (.raised (.exc nm)), s1)
          ∧ funcCalledCount s1 = funcCalledCount s) := by
  refine ⟨fun hcan => ?_, fun hconf herr => ?_, fun nm herrE hconf => ?_⟩
  · obtain ⟨s1A, fid, hacq, _, _, hpath, hben, _, _⟩ :=
      acquire_succ_inv (p ++ ".lock") sh true s hcan hwf
    have hloop : lockfileAcq (p ++ ".lock") mR rD sh s
        = (.ok (some (⟨some s.nextFd, p ++ ".lock", sh, true⟩ : LockFile)), s1A) :=
      loop_succ_first (p ++ ".lock") sh rD (1 + mR) s (by omega) _ _ hacq
    rcases hclE : LockFile.close (⟨some s.nextFd, p ++ ".lock", sh, true⟩ : LockFile)
        (logEv (.funcCalled args kwargs) s1A) with ⟨cr, l2, s3⟩
    have hok : (LockFile.close (⟨some s.nextFd, p ++ ".lock", sh, true⟩ : LockFile)
        (logEv (.funcCalled args kwargs) s1A)).1 = .ok () :=
      close_ok_of_pathExists _ _ s.nextFd rfl hpath
    rw [hclE] at hok
    simp only at hok
    subst hok
    have h1 : funcCalledCount s1A = funcCalledCount s := benignExt_funcCount _ _ hben
    have h2 : funcCalledCount (logEv (.funcCalled args kwargs) s1A)
        = funcCalledCount s1A + 1 := by
      simp [funcCalledCount, logEv, isFuncCalledEv]
    obtain ⟨ext2, hE2, _, hf0⟩ :=
      close_events (⟨some s.nextFd, p ++ ".lock", sh, true⟩ : LockFile)
        (logEv (.funcCalled args kwargs) s1A)
    rw [hclE] at hE2
    have hE2b : s3.events = (logEv (.funcCalled args kwargs) s1A).events ++ ext2 := hE2
    have h3 : funcCalledCount s3 = funcCalledCount (logEv (.funcCalled args kwargs) s1A) :=
      funcCount_of_ext _ _ ext2 hE2b hf0
    simp only [lockfunc, hres, lockfile, hloop, lockfuncBody, Option.isNone_some,
      Bool.and_false, if_false, hclE, Bool.false_eq_true]
    exact ⟨by trivial, by rw [h3, h2, h1]⟩
  · obtain ⟨s1, hloop, hben⟩ := loop_fail (p ++ ".lock") sh rD (1 + mR) s hconf hwf
    have hE : lockfileAcq (p ++ ".lock") mR rD sh s = (.ok none, s1) := hloop
    refine ⟨s1, ?_, benignExt_funcCount _ _ hben⟩
    simp only [lockfunc, hres, lockfile, hE, herr, Bool.false_and, if_false,
      lockfuncBody, Bool.false_eq_true]
  · obtain ⟨s1, hloop, hben⟩ := loop_fail (p ++ ".lock") sh rD (1 + mR) s hconf hwf
    have hE : lockfileAcq (p ++ ".lock") mR rD sh s = (.ok none, s1) := hloop
    refine ⟨s1, ?_, benignExt_funcCount _ _ hben⟩
    subst herrE
    simp only [lockfunc, hres, lockfile, hE, pyTruthy, Option.isNone_none, Bool.and_true,
      if_true, pyRaise]

/-- A concrete target function returning a fixed result. -/
def cfunc6 : List PyVal → List (String × PyVal) → PyVal := fun _ _ => PyVal.str "result"

/-- Witness for C6: on the empty world the wrapped call runs the target on
its original arguments and returns its result, logging one invocation. -/
theorem guarded_call_behavior_witness :
    (lockfunc (PyVal.str "w6") 0 0 false PyVal.none PyVal.none cfunc6
        [PyVal.int 5] [] stEmpty).1 = .ok (cfunc6 [PyVal.int 5] [])
      ∧ funcCalledCount (lockfunc (PyVal.str "w6") 0 0 false PyVal.none PyVal.none cfunc6
          [PyVal.int 5] [] stEmpty).2 = funcCalledCount stEmpty + 1 :=
  (guarded_call_behavior (PyVal.str "w6") 0 0 false PyVal.none PyVal.none cfunc6
    [PyVal.int 5] [] stEmpty "w6" (by decide)
    (by refine ⟨?_, ?_, ?_⟩ <;> decide)).1 (by decide)

theorem acquire_ok_path (p : String) (sh cl : Bool) (s : St) (l : LockFile) (s1 : St)
    (h : LockFile.acquire p sh cl s = (.ok l, s1)) : l.path = p := by
  rcases hoE : openAppend p s with ⟨fd, s0⟩
  rcases hflE : flock fd (modeOf sh) s0 with ⟨b, s2⟩
  cases b
  · rw [show LockFile.acquire p sh cl s = (.error (.lockError p), fclose fd s2) from by
      simp [LockFile.acquire, hoE, hflE]] at h
    exact absurd (congrArg Prod.fst h) (by simp)
  · rw [show LockFile.acquire p sh cl s = (.ok ⟨some fd, p, sh, cl⟩, s2) from by
      simp [LockFile.acquire, hoE, hflE]] at h
    rw [Prod.mk.injEq] at h
    obtain ⟨hl2, _⟩ := h
    injection hl2 with hl3
    rw [← hl3]

theorem loop_some_path (p : String) (sh : Bool) (d : Nat) :
    ∀ (n : Nat) (s : St) (l : LockFile) (s1 : St),
      acquireLoop (fun s2 => LockFile.acquire p sh true s2) (sleepSt d) n s
        = (.ok (some l), s1) → l.path = p := by
  intro n
  induction n with
  | zero =>
      intro s l s1 h
      exact absurd (congrArg Prod.fst h) (by simp [acquireLoop])
  | succ m ih =>
      intro s l s1 h
      rcases haE : LockFile.acquire p sh true s with ⟨r, s2⟩
      rcases r with e | l2
      · obtain ⟨he, _, _⟩ := acquire_err_char p sh true s e s2 haE
        subst he
        simp only [acquireLoop, haE] at h
        exact ih _ l s1 h
      · simp only [acquireLoop, haE] at h
        rw [Prod.mk.injEq] at h
        obtain ⟨hl2, _⟩ := h
        injection hl2 with hl3
        injection hl3 with hl4
        rw [← hl4]
        exact acquire_ok_path p sh true s l2 s2 haE

/-- C5: Acquire opens, creating if absent and never truncating existing
content, the file at path plus the ".lock" suffix; on success the returned
lock records exactly that path, and the OS advisory lock is taken through a
handle onto that path's file object; every lock the retry loop yields for
path p has lock path p ++ ".lock". -/
theorem lock_artifact_path (p : String) (sh cl : Bool) (s : St) (mR rD : Nat)
    (hwf : wfSt s) :
    (canAcquire (p ++ ".lock") (modeOf sh) s = true →
        ∃ s1 fid, LockFile.acquire (p ++ ".lock") sh cl s
            = (.ok ⟨some s.nextFd, p ++ ".lock", sh, cl⟩, s1)
          ∧ lookupDir s1 (p ++ ".lock") = some fid
          ∧ findHandle s1 s.nextFd = some ⟨s.nextFd, fid, true, some (modeOf sh)⟩
          ∧ pathExists s1 (p ++ ".lock") = true
          ∧ (∀ fid0, lookupDir s (p ++ ".lock") = some fid0 →
              fid = fid0 ∧ contentsOf s1 fid0 = contentsOf s fid0)
          ∧ (lookupDir s (p ++ ".lock") = none →
              fid = s.nextFid ∧ contentsOf s1 s.nextFid = some ""))
    ∧ (∀ (l : LockFile) (s1 : St),
        lockfileAcq (p ++ ".lock") mR rD sh s = (.ok (some l), s1) →
        l.path = p ++ ".lock") := by
  constructor
  · intro hcan
    obtain ⟨s1, fid, hacq, hl, hfind, hpath, _, hex, hfresh⟩ :=
      acquire_succ_inv (p ++ ".lock") sh cl s hcan hwf
    exact ⟨s1, fid, hacq, hl, hfind, hpath, hex, hfresh⟩
  · intro l s1 h
    exact loop_some_path (p ++ ".lock") sh rD (1 + mR) s l s1 h

/-- The lock object acquired on w5.lock in the C5 witness run. -/
def wLk5 : LockFile := ⟨some 0, "w5.lock", false, true⟩

/-- Witness for C5: on the empty world the acquisition phase for path w5
yields a lock whose on-disk artifact path is exactly w5 suffixed with
".lock". -/
theorem lock_artifact_path_witness : wLk5.path = "w5" ++ ".lock" :=
  (lock_artifact_path "w5" false true stEmpty 0 0
    (by refine ⟨?_, ?_, ?_⟩ <;> decide)).2 wLk5
    (logEv (.flocked 0 (modeOf false))
      { (logEv (.opened 0 "w5.lock")
          { stEmpty with dir := [("w5.lock", 0)], contents := [(0, "")],
                         handles := [⟨0, 0, true, none⟩], nextFd := 1, nextFid := 1 }) with
        handles := [⟨0, 0, true, some (modeOf false)⟩] })
    (by decide)

/-- A concrete target function for the C8 counterexample and witness. -/
def cfunc8 : List PyVal → List (String × PyVal) → PyVal := fun _ _ => PyVal.str "result"

/-- Counterexample to C8: the configured path is the explicitly given (but
falsy) empty string, yet the call locks the artifact derived from the first
positional argument r, not from the configured path (the events open
r.lock, and no handle is ever opened on .lock). -/
theorem lockfunc_falsy_path_cex :
    resolvePath (PyVal.str "") [PyVal.str "r"] = some (PyVal.str "r")
      ∧ (lockfunc (PyVal.str "") 0 0 false PyVal.none PyVal.none cfunc8
            [PyVal.str "r"] [] stEmpty).2.events
          = [.opened 0 "r.lock", .flocked 0 Mode.exclusive,
             .funcCalled [PyVal.str "r"] [], .closeCalled (some 0),
             .removed "r.lock", .closedFd 0] := by
  decide

/-- C8 as amended: the effective lock path is the explicitly configured
path when it is given and truthy; a falsy configured path (None or the
empty string) falls back to the first positional argument; and when neither
a truthy configured path nor any positional argument is supplied, the call
fails with an uncaught IndexError rather than being recovered. -/
theorem lockfunc_path_resolution (path : PyVal) (mR rD : Nat) (sh : Bool)
    (marker error : PyVal) (func : List PyVal → List (String × PyVal) → PyVal)
    (args : List PyVal) (kwargs : List (String × PyVal)) (s : St) :
    (pyTruthy path = true →
        lockfunc path mR rD sh marker error func args kwargs s
          = lockfile path mR rD sh error (lockfuncBody func marker args kwargs) s)
    ∧ (∀ a rest, pyTruthy path = false → args = a :: rest →
        lockfunc path mR rD sh marker error func args kwargs s
          = lockfile a mR rD sh error (lockfuncBody func marker args kwargs) s)
    ∧ (pyTruthy path = false → args = [] →
        lockfunc path mR rD sh marker error func args kwargs s
          = (.error .indexError, s)) := by
  refine ⟨fun htr => ?_, fun a rest hfa hargs => ?_, fun hfa hargs => ?_⟩
  · simp [lockfunc, resolvePath, htr]
  · subst hargs
    simp [lockfunc, resolvePath, hfa]
  · subst hargs
    simp [lockfunc, resolvePath, hfa]

/-- Witness for amended C8: with no configured path and no positional
arguments the call fails with IndexError. -/
theorem lockfunc_path_resolution_witness :
    lockfunc PyVal.none 0 0 false PyVal.none PyVal.none cfunc8 [] [] stEmpty
      = (.error .indexError, stEmpty) :=
  (lockfunc_path_resolution PyVal.none 0 0 false PyVal.none PyVal.none cfunc8
    [] [] stEmpty).2.2 rfl rfl
